import Mathlib

/-!
Verification development for the roster core of maccas-roster-agents:
the compliance oracle (`agents/compliance.py`), the CP-SAT constraint
model builder (`agents/generator.py`) and the conflict-resolution repair
heuristic (`agents/conflict_resolution.py`).

Modelling conventions, fixed once for the whole file:

* Dates are modelled as integers (day numbers); `(d2 - d1).days` in
  Python becomes plain integer subtraction.
* All hour quantities (shift durations, contract bounds, tolerance
  bands) are modelled in exact integer *centihours* (1 unit = 0.01 h):
  every numeric constant in the source is a decimal with at most two
  fractional digits, so this representation is exact, and the Python
  float arithmetic on these values (sums, differences, comparisons)
  is idealised as exact real arithmetic, which the centihour integers
  implement faithfully.  E.g. `8.5` hours is `850`, the `2.0` h weekly
  tolerance is `200`, the FULL_TIME bi-weekly cap `76.0` is `7600`.
* Rest periods between shifts are modelled in exact integer *minutes*.
  The source computes `delta.total_seconds() / 3600.0` and compares the
  result with `10.0`; since `delta` is a whole number of minutes `m`,
  `m / 60 < 10` (as reals) iff `m < 600`, so the comparison is carried
  out on minutes against `MIN_REST_MINUTES = 600` (= 10.0 h).
* Python dicts are modelled as association lists in insertion order;
  `dict.get` is `alookup` (first matching key).  The dicts built by the
  program have unique keys, so first-match lookup coincides with dict
  lookup.
* `Violation.message` (a human-readable f-string) and the unused
  `extra` field are presentation-only and omitted from the model; a
  violation is its severity, code, employee id and optional date.
* Python's stable `sorted` / `list.sort` is modelled by a stable
  insertion sort `stableSort` (stability: equal keys keep their
  original relative order, which `sorted` and `sort(reverse=True)`
  both guarantee).
-/

/-- `ContractType` from `core/models.py`. -/
inductive ContractType where
  | full_time
  | part_time
  | casual
deriving DecidableEq

/-- `SkillTag` from `core/models.py`. -/
inductive SkillTag where
  | kitchen
  | counter
  | mccafe
  | dessert
  | delivery
  | manager
deriving DecidableEq

/-- `Employee` from `core/models.py`. -/
structure Employee where
  id : String
  name : String
  contract_type : ContractType
  skill_tags : List SkillTag
deriving DecidableEq

/-- A wall-clock time of day, hour and minute (`datetime.time` with
seconds always zero: all times in the source are built from `time(h, m)`
literals or parsed with the format `"%H:%M"`). -/
structure TimeHM where
  hour : Nat
  minute : Nat
deriving DecidableEq

/-- Python `time` comparison `a <= b` (lexicographic on (hour, minute)). -/
def timeLe (a b : TimeHM) : Bool :=
  a.hour < b.hour || (a.hour == b.hour && a.minute ≤ b.minute)

/-- Minutes from midnight. -/
def TimeHM.toMin (t : TimeHM) : Int :=
  (t.hour : Int) * 60 + (t.minute : Int)

/-- One entry of the shift-template catalog: the dict
`{"start": …, "end": …, "hours": …}` of `agents/compliance.py`.
`stop` is the `"end"` key (`end` is a Lean keyword); `hours` is in
centihours. -/
structure ShiftTpl where
  start : TimeHM
  stop : TimeHM
  hours : Int
deriving DecidableEq

/-- The shift-template catalog `SHIFT_TEMPLATES` (code → template), as
an association list in insertion order.  Its contents are data (Excel
overrides merged over the hard-coded defaults), so the development is
parameterised over it. -/
def ShiftCatalog : Type := List (String × ShiftTpl)

/-- First-match association-list lookup: Python `dict.get(k)` (the
dicts in the source have unique keys). -/
def alookup {β : Type} (l : List (String × β)) (k : String) : Option β :=
  (l.find? (fun p => p.1 == k)).map (fun p => p.2)

/-- Integer-keyed variant of `alookup` for date-keyed dicts. -/
def dlookup {β : Type} (l : List (Int × β)) (k : Int) : Option β :=
  (l.find? (fun p => p.1 == k)).map (fun p => p.2)

/-- `DEFAULT_SHIFT_TEMPLATES` from `agents/compliance.py` (hours in
centihours: 8.5 h = 850 and so on). -/
def DEFAULT_SHIFT_TEMPLATES : ShiftCatalog :=
  [ ("S",  { start := ⟨6, 30⟩,  stop := ⟨15, 0⟩,  hours := 850 }),
    ("1F", { start := ⟨6, 30⟩,  stop := ⟨15, 30⟩, hours := 900 }),
    ("2F", { start := ⟨14, 0⟩,  stop := ⟨23, 0⟩,  hours := 900 }),
    ("3F", { start := ⟨8, 0⟩,   stop := ⟨20, 0⟩,  hours := 1200 }),
    ("SC", { start := ⟨11, 0⟩,  stop := ⟨20, 0⟩,  hours := 900 }) ]

/-- `DEFAULT_SHIFT_HOURS = 8.0` (centihours). -/
def DEFAULT_SHIFT_HOURS : Int := 800

/-- `SHIFT_HOURS.get(code, DEFAULT_SHIFT_HOURS)`: the duration of a
shift code, falling back to the 8.0 h default for unknown codes
(`SHIFT_HOURS` has exactly the keys of `SHIFT_TEMPLATES`). -/
def shiftHours (tpls : ShiftCatalog) (code : String) : Int :=
  match alookup tpls code with
  | some t => t.hours
  | none => DEFAULT_SHIFT_HOURS

/-- `CONTRACT_HOURS_BOUNDS` from `agents/compliance.py`: bi-weekly
(min, max) hour bounds per contract type, in centihours.  The Python
dict has an entry for every `ContractType` member, so `dict.get` never
misses and the model is a total function. -/
def CONTRACT_HOURS_BOUNDS : ContractType → Int × Int
  | ContractType.full_time => (7000, 7600)
  | ContractType.part_time => (4000, 6400)
  | ContractType.casual => (1600, 4800)

/-- `WEEKLY_CONTRACT_HOURS_BOUNDS` from `agents/compliance.py`
(centihours), total for the same reason. -/
def WEEKLY_CONTRACT_HOURS_BOUNDS : ContractType → Int × Int
  | ContractType.full_time => (3500, 3800)
  | ContractType.part_time => (2000, 3200)
  | ContractType.casual => (800, 2400)

/-- `MIN_SHIFT_HOURS_CASUAL = 3.0` (centihours). -/
def MIN_SHIFT_HOURS_CASUAL : Int := 300

/-- `MIN_REST_HOURS_BETWEEN_DAYS = 10.0`, expressed in minutes
(see the header: rest periods are compared in exact minutes). -/
def MIN_REST_MINUTES : Int := 600

/-- `MAX_CONSECUTIVE_WORKING_DAYS = 6`. -/
def MAX_CONSECUTIVE_WORKING_DAYS : Nat := 6

/-- `ShiftAssignment` from `core/models.py`. -/
structure ShiftAssignment where
  employee_id : String
  date : Int
  shift_code : String
  station : Option SkillTag
  store_id : String
deriving DecidableEq

/-- `Roster` from `core/models.py`. -/
structure Roster where
  store_id : String
  start_date : Int
  end_date : Int
  assignments : List ShiftAssignment
deriving DecidableEq

/-- `ViolationSeverity` from `core/models.py`. -/
inductive ViolationSeverity where
  | hard
  | soft
deriving DecidableEq

/-- `Violation` from `core/models.py` (without the presentation-only
`message` and `extra` fields). -/
structure Violation where
  severity : ViolationSeverity
  code : String
  employee_id : Option String
  date : Option Int
deriving DecidableEq

/-- `EmployeeAvailability` from `core/models.py`:
date → list of allowed shift codes. -/
structure EmployeeAvailability where
  employee_id : String
  allowed_shift_codes_by_date : List (Int × List String)
deriving DecidableEq

/-- `SystemContext` from `core/models.py`.  `employees` and
`availability` are insertion-ordered dicts keyed by employee id;
`demand_by_date` maps a date to a station → headcount dict.
(`manager_template_by_weekday` is unused by the three core agents and
omitted.) -/
structure SystemContext where
  employees : List (String × Employee)
  availability : List (String × EmployeeAvailability)
  demand_by_date : List (Int × List (SkillTag × Int))
deriving DecidableEq

/-- Stable insertion of `a` into `l`: `a` goes after every existing
element `b` with `le b a` (so equal keys keep their original order). -/
def insertStable {α : Type} (le : α → α → Bool) (a : α) : List α → List α
  | [] => [a]
  | b :: bs => if le b a then b :: insertStable le a bs else a :: b :: bs

/-- Stable sort (models Python's stable `sorted` / `list.sort`). -/
def stableSort {α : Type} (le : α → α → Bool) (l : List α) : List α :=
  l.foldl (fun acc a => insertStable le a acc) []

/-- Step 1 of `ComplianceAgent.check_roster`: total hours per employee.
The source accumulates a dict keyed by `assignment.employee_id`; per
key the accumulated value is the sum of the durations of that
employee's assignments (`dict.get(emp_id, 0.0)` default 0). -/
def hoursByEmp (tpls : ShiftCatalog) (assignments : List ShiftAssignment)
    (emp_id : String) : Int :=
  ((assignments.filter (fun a => a.employee_id == emp_id)).map
    (fun a => shiftHours tpls a.shift_code)).sum

/-- Step 2 of `check_roster` for one `(emp_id, emp)` item of
`ctx.employees`: bi-weekly hours against `CONTRACT_HOURS_BOUNDS`. -/
def biweeklyViolationsEntry (tpls : ShiftCatalog) (roster : Roster)
    (p : String × Employee) : List Violation :=
  let total := hoursByEmp tpls roster.assignments p.1
  let bounds := CONTRACT_HOURS_BOUNDS p.2.contract_type
  (if total < bounds.1 then
    [{ severity := ViolationSeverity.soft, code := "MIN_HOURS_NOT_MET",
       employee_id := some p.2.id, date := none }] else []) ++
  (if total > bounds.2 then
    [{ severity := ViolationSeverity.hard, code := "MAX_HOURS_EXCEEDED",
       employee_id := some p.2.id, date := none }] else [])

/-- Week bucket of an assignment date relative to the roster start:
`(assignment.date - roster.start_date).days // 7`.  Only evaluated
behind the `assignment.date < roster.start_date → continue` guard, so
the operand is non-negative and truncating division equals Python's
floor division. -/
def weekIndexOf (start_date d : Int) : Int := (d - start_date) / 7

/-- Step 2b hour accumulation: `weekly_hours[(emp_id, week_index)]`,
as a function of the key (sum of the matching assignments' durations;
assignments before the roster start are skipped). -/
def weeklyHoursFor (tpls : ShiftCatalog) (roster : Roster)
    (emp_id : String) (w : Int) : Int :=
  ((roster.assignments.filter (fun a =>
      a.employee_id == emp_id && !(a.date < roster.start_date) &&
      weekIndexOf roster.start_date a.date == w)).map
    (fun a => shiftHours tpls a.shift_code)).sum

/-- `(emp_id, week_index) in weekly_hours`: the key exists iff some
assignment contributed to it. -/
def weeklyKeyPresent (roster : Roster) (emp_id : String) (w : Int) : Bool :=
  roster.assignments.any (fun a =>
    a.employee_id == emp_id && !(a.date < roster.start_date) &&
    weekIndexOf roster.start_date a.date == w)

/-- One `week_index` step of step 2b of `check_roster`: weekly hours
of the employee in bucket `w` against `WEEKLY_CONTRACT_HOURS_BOUNDS`,
checked only when the `(emp_id, week_index)` key exists; a weekly-max
breach within the 2.0 h (= 200 centihour) tolerance band is skipped
(`continue`). -/
def weeklyViolForWeek (tpls : ShiftCatalog) (roster : Roster)
    (p : String × Employee) (w : Int) : List Violation :=
  if weeklyKeyPresent roster p.1 w then
    (if weeklyHoursFor tpls roster p.1 w <
        (WEEKLY_CONTRACT_HOURS_BOUNDS p.2.contract_type).1 then
      [{ severity := ViolationSeverity.soft,
         code := "WEEKLY_MIN_HOURS_NOT_MET",
         employee_id := some p.2.id, date := none }] else []) ++
    (if weeklyHoursFor tpls roster p.1 w >
        (WEEKLY_CONTRACT_HOURS_BOUNDS p.2.contract_type).2 then
      (if weeklyHoursFor tpls roster p.1 w -
          (WEEKLY_CONTRACT_HOURS_BOUNDS p.2.contract_type).2 ≤ 200 then []
       else
        [{ severity := ViolationSeverity.soft,
           code := "WEEKLY_MAX_HOURS_EXCEEDED",
           employee_id := some p.2.id, date := none }])
     else [])
  else []

/-- Step 2b of `check_roster` for one `(emp_id, emp)` item: the
`for week_index in (0, 1)` loop over `weeklyViolForWeek`. -/
def weeklyViolationsEntry (tpls : ShiftCatalog) (roster : Roster)
    (p : String × Employee) : List Violation :=
  ([0, 1] : List Int).flatMap (weeklyViolForWeek tpls roster p)

/-- Step 3 of `check_roster`: minimum shift length for casuals. -/
def casualViolations (tpls : ShiftCatalog) (ctx : SystemContext)
    (roster : Roster) : List Violation :=
  roster.assignments.filterMap (fun a =>
    match alookup ctx.employees a.employee_id with
    | none => none
    | some emp =>
      match alookup tpls a.shift_code with
      | none => none
      | some t =>
        if emp.contract_type = ContractType.casual ∧
            t.hours < MIN_SHIFT_HOURS_CASUAL then
          some { severity := ViolationSeverity.hard,
                 code := "MIN_SHIFT_LENGTH_CASUAL",
                 employee_id := some emp.id, date := some a.date }
        else none)

/-- `ComplianceAgent._rest_hours_between`, in exact minutes: rest from
the end of `prev` to the start of `nxt` using the catalog times;
unknown codes are conservatively treated as 24 h (= 1440 min) of
rest. -/
def restMinutesBetween (tpls : ShiftCatalog)
    (prev nxt : ShiftAssignment) : Int :=
  match alookup tpls prev.shift_code, alookup tpls nxt.shift_code with
  | some tp, some tn =>
      (nxt.date - prev.date) * 1440 + tn.start.toMin - tp.stop.toMin
  | _, _ => 1440

/-- The employee's assignments sorted by date
(`sorted([a for a in roster.assignments if a.employee_id == emp_id],
key=lambda x: x.date)`). -/
def sortedAssignmentsFor (roster : Roster) (emp_id : String) :
    List ShiftAssignment :=
  stableSort (fun a b => a.date ≤ b.date)
    (roster.assignments.filter (fun a => a.employee_id == emp_id))

/-- Step 4 of `check_roster` for one `(emp_id, emp)` item: rest between
consecutive calendar days (gaps other than exactly one day are not
checked). -/
def restViolationsEntry (tpls : ShiftCatalog) (roster : Roster)
    (p : String × Employee) : List Violation :=
  let sorted := sortedAssignmentsFor roster p.1
  (sorted.zip sorted.tail).filterMap (fun pr =>
    if pr.2.date - pr.1.date ≠ 1 then none
    else if restMinutesBetween tpls pr.1 pr.2 < MIN_REST_MINUTES then
      some { severity := ViolationSeverity.hard,
             code := "INSUFFICIENT_REST",
             employee_id := some p.2.id, date := some pr.2.date }
    else none)

/-- The streak update of step 5 of `check_roster`: `streak + 1` when
the date gap is exactly one day, else a reset to 1. -/
def consecStep (prev nxt : ShiftAssignment) (streak : Nat) : Nat :=
  if nxt.date - prev.date == 1 then streak + 1 else 1

/-- The walk of step 5 of `check_roster`: `prev` is the previous
assignment, `streak` the current run length; the streak is updated by
`consecStep` (reset to 1 when the date gap is not exactly one day),
and the first time it exceeds `MAX_CONSECUTIVE_WORKING_DAYS` one
violation is produced and the walk stops (`break`). -/
def consecWalk (emp_id : String) (prev : ShiftAssignment)
    (rest : List ShiftAssignment) (streak : Nat) : Option Violation :=
  match rest with
  | [] => none
  | nxt :: more =>
    if consecStep prev nxt streak > MAX_CONSECUTIVE_WORKING_DAYS then
      some { severity := ViolationSeverity.hard,
             code := "MAX_CONSECUTIVE_DAYS_EXCEEDED",
             employee_id := some emp_id, date := some nxt.date }
    else consecWalk emp_id nxt more (consecStep prev nxt streak)

/-- Step 5 of `check_roster` for one `(emp_id, emp)` item. -/
def consecViolationsEntry (roster : Roster) (p : String × Employee) :
    List Violation :=
  match sortedAssignmentsFor roster p.1 with
  | [] => []
  | a :: rest => (consecWalk p.2.id a rest 1).toList

/-- Step 6 of `check_roster`: assignments whose employee id is not a
key of `ctx.employees`. -/
def unknownEmployeeViolations (ctx : SystemContext) (roster : Roster) :
    List Violation :=
  roster.assignments.filterMap (fun a =>
    if (alookup ctx.employees a.employee_id).isNone then
      some { severity := ViolationSeverity.hard,
             code := "UNKNOWN_EMPLOYEE",
             employee_id := some a.employee_id, date := some a.date }
    else none)

/-- `ComplianceAgent.check_roster(ctx, roster)`: the six checks in
source order, appended into one violation list. -/
def checkRoster (tpls : ShiftCatalog) (ctx : SystemContext)
    (roster : Roster) : List Violation :=
  ctx.employees.flatMap (biweeklyViolationsEntry tpls roster) ++
  ctx.employees.flatMap (weeklyViolationsEntry tpls roster) ++
  casualViolations tpls ctx roster ++
  ctx.employees.flatMap (restViolationsEntry tpls roster) ++
  ctx.employees.flatMap (consecViolationsEntry roster) ++
  unknownEmployeeViolations ctx roster

/-- Number of violations in `vs` carrying a given code. -/
def countViol (vs : List Violation) (c : String) : Nat :=
  vs.countP (fun v => v.code == c)

/-- Number of violations in `vs` carrying a given code and employee
id. -/
def countViolFor (vs : List Violation) (c : String) (eid : String) : Nat :=
  vs.countP (fun v => v.code == c && v.employee_id == some eid)

/-!
`agents/conflict_resolution.py` — `ConflictResolutionAgent`.

The running `hours_by_emp` dict is modelled as a total function
`String → Int` (missing key = `0.0` default, matching
`dict.get(emp_id, 0.0)`); assignment object identity is modelled by
the position of the assignment in the working list, so the in-place
mutation `a.employee_id = candidate_id` becomes `List.set` at that
position.
-/

/-- `ConflictResolutionAgent._compute_hours_by_employee`, as a function
of the employee id. -/
def computeHoursByEmployee (tpls : ShiftCatalog)
    (assignments : List ShiftAssignment) (emp_id : String) : Int :=
  ((assignments.filter (fun a => a.employee_id == emp_id)).map
    (fun a => shiftHours tpls a.shift_code)).sum

/-- The allowed shift codes of employee `emp_id` on date `d`:
`availability_map.get(emp_id, {}).get(date, set())` where
`availability_map` is rebuilt from `ctx.availability` (same
construction in the generator and in `_find_replacement_employee`). -/
def availAllowed (ctx : SystemContext) (emp_id : String) (d : Int) :
    List String :=
  match alookup ctx.availability emp_id with
  | none => []
  | some av =>
    match dlookup av.allowed_shift_codes_by_date d with
    | none => []
    | some codes => codes

/-- The eligibility filter of
`ConflictResolutionAgent._find_replacement_employee`: not the
overloaded employee, available for `(date_, shift_code)`, not already
assigned on `date_`, and with room under the contract maximum. -/
def replacementEligible (ctx : SystemContext)
    (assignments : List ShiftAssignment) (hours : String → Int)
    (date_ : Int) (shift_code : String) (shift_hours : Int)
    (exclude_emp_id : String) (p : String × Employee) : Bool :=
  p.1 ≠ exclude_emp_id &&
  (availAllowed ctx p.1 date_).contains shift_code &&
  !(assignments.any (fun a => a.date == date_ && a.employee_id == p.1)) &&
  hours p.1 + shift_hours ≤ (CONTRACT_HOURS_BOUNDS p.2.contract_type).2

/-- `ConflictResolutionAgent._find_replacement_employee`: walk
`ctx.employees` in order collecting eligible candidates; return the
first one currently under their contract minimum, else the first
eligible one, else `none`.  (The source collects `under_min` and
`normal` lists and returns `under_min[0]` / `normal[0]`; the first
eligible candidate under the minimum is `under_min[0]`, and when no
candidate is under the minimum the first eligible one is
`normal[0]`.) -/
def findReplacementEmployee (ctx : SystemContext)
    (assignments : List ShiftAssignment) (hours : String → Int)
    (date_ : Int) (shift_code : String) (shift_hours : Int)
    (exclude_emp_id : String) : Option String :=
  let cands := ctx.employees.filter
    (replacementEligible ctx assignments hours date_ shift_code
      shift_hours exclude_emp_id)
  match cands.find? (fun p =>
      hours p.1 < (CONTRACT_HOURS_BOUNDS p.2.contract_type).1) with
  | some p => some p.1
  | none => cands.head?.map (fun p => p.1)

/-- The inner `for a in emp_assignments` loop of `rebalance_hours`:
try this overloaded employee's assignments (already sorted latest date
first, paired with their position in the working list) until a
replacement employee is found; return the position, the assignment,
the candidate and the shift hours of the first movable shift. -/
def findFirstMove (ctx : SystemContext) (tpls : ShiftCatalog)
    (assignments : List ShiftAssignment) (hours : String → Int)
    (exclude_emp_id : String) :
    List (Nat × ShiftAssignment) →
    Option (Nat × ShiftAssignment × String × Int)
  | [] => none
  | (i, a) :: rest =>
    match findReplacementEmployee ctx assignments hours a.date
        a.shift_code (shiftHours tpls a.shift_code) exclude_emp_id with
    | some c => some (i, a, c, shiftHours tpls a.shift_code)
    | none => findFirstMove ctx tpls assignments hours exclude_emp_id rest

/-- One `for overloaded_id in overloaded_ids` step of an iteration of
`rebalance_hours`.  State: working assignment list, running
`hours_by_emp`, `progress_made` flag. -/
def processOverloadedOne (ctx : SystemContext) (tpls : ShiftCatalog)
    (st : List ShiftAssignment × (String → Int) × Bool)
    (overloaded_id : String) :
    List ShiftAssignment × (String → Int) × Bool :=
  let assignments := st.1
  let hours := st.2.1
  match alookup ctx.employees overloaded_id with
  | none => st
  | some emp =>
    let max_h := (CONTRACT_HOURS_BOUNDS emp.contract_type).2
    let current_h := hours overloaded_id
    if current_h ≤ max_h then st
    else
      let emp_assignments := stableSort
        (fun x y => y.2.date ≤ x.2.date)
        (assignments.enum.filter
          (fun q => q.2.employee_id == overloaded_id))
      match findFirstMove ctx tpls assignments hours overloaded_id
          emp_assignments with
      | none => st
      | some (i, a, candidate_id, sh) =>
        let hours1 := fun k =>
          if k = overloaded_id then hours overloaded_id - sh else hours k
        let hours2 := fun k =>
          if k = candidate_id then hours1 candidate_id + sh else hours1 k
        (assignments.set i { a with employee_id := candidate_id },
         hours2, true)

/-- One iteration of the `for iteration in range(self.max_iterations)`
loop, already knowing the overloaded ids for this iteration. -/
def rebalanceIteration (ctx : SystemContext) (tpls : ShiftCatalog)
    (assignments : List ShiftAssignment) (hours : String → Int)
    (overloaded_ids : List String) :
    List ShiftAssignment × (String → Int) × Bool :=
  overloaded_ids.foldl (processOverloadedOne ctx tpls)
    (assignments, hours, false)

/-- The iteration loop of `rebalance_hours`, with the remaining fuel of
the `range(self.max_iterations)`: recompute hours, find the overloaded
employees, stop when there are none, process them, stop when no
progress was made. -/
def rebalanceLoop (ctx : SystemContext) (tpls : ShiftCatalog) :
    Nat → List ShiftAssignment → List ShiftAssignment
  | 0, assignments => assignments
  | n + 1, assignments =>
    let hours := computeHoursByEmployee tpls assignments
    let overloaded_ids := (ctx.employees.filter (fun p =>
        hours p.1 > (CONTRACT_HOURS_BOUNDS p.2.contract_type).2)).map
      (fun p => p.1)
    if overloaded_ids.isEmpty then assignments
    else
      let st := rebalanceIteration ctx tpls assignments hours
        overloaded_ids
      if st.2.2 then rebalanceLoop ctx tpls n st.1 else st.1

/-- `ConflictResolutionAgent.rebalance_hours(ctx, roster)` with
iteration cap `max_iterations` (source default 20); the audit-log list
the source also returns carries no roster data and is omitted.  The
result is the `new_roster` built from the patched working list. -/
def rebalanceHours (tpls : ShiftCatalog) (ctx : SystemContext)
    (roster : Roster) (max_iterations : Nat := 20) : Roster :=
  { store_id := roster.store_id,
    start_date := roster.start_date,
    end_date := roster.end_date,
    assignments := rebalanceLoop ctx tpls max_iterations
      roster.assignments }

/-- The assignment values observable through the *input* roster after
`rebalance_hours` returns.  In the source, `assignments =
list(roster.assignments)` copies only the list container: the
`ShiftAssignment` elements are the same objects at the same positions
in both lists, and the repair loop patches them in place
(`a.employee_id = candidate_id`).  A positional update of the working
list is therefore simultaneously a positional update of the input
roster's list, so after the call the input roster shows exactly the
patched collection that `rebalanceLoop` produces. -/
def inputAssignmentsAfterRebalance (tpls : ShiftCatalog)
    (ctx : SystemContext) (roster : Roster)
    (max_iterations : Nat := 20) : List ShiftAssignment :=
  rebalanceLoop ctx tpls max_iterations roster.assignments

/-!
`agents/generator.py` — `CandidateGeneratorAgent`.

The CP-SAT model is embedded shallowly: a candidate solver solution is
a `GenSolution` (one value for every variable family the builder
creates), and `genHardConstraints` is the conjunction of every
constraint the builder adds, quantified over exactly the loop ranges
of the source.  Variables are keyed by employee id / date / shift code
instead of by the dense indices `e_idx`/`d_idx`/`s_idx`; the index
maps of the source are injective on these keys whenever employee ids
are unique (the wellformedness hypotheses used by the theorems below),
so the keying is a bijective renaming of the variables.  A solution
value outside the triples for which the builder creates a variable is
never read by any constraint or by the decoder, matching the source
(where such variables simply do not exist).
-/

/-- `HOURS_SCALE = 2` (1 unit = 0.5 h): `int(round(hours * 2))`, for
`hours` given in centihours `c` (so `hours * 2 = c / 50`), with
Python 3 banker's rounding (round half to even). -/
def pyRoundHalfUnits (c : Int) : Int :=
  let f := c.fdiv 50
  let r := c.fmod 50
  if r < 25 then f
  else if r > 25 then f + 1
  else if 2 ∣ f then f else f + 1

/-- The planning-window dates `start_date, start_date+1, …, end_date`
(the `while current <= end_date` loop). -/
def datesList (start_date end_date : Int) : List Int :=
  (List.range (end_date + 1 - start_date).toNat).map
    (fun i => start_date + (i : Int))

/-- `sorted(availability_map.get(emp.id, {}).get(dt, set()))`: the
allowed shift codes of one employee on one date, deduplicated (the
source materialises a Python set; only its enumeration order differs
from `dedup`, and no constraint or count depends on that order). -/
def allowedCodesOn (ctx : SystemContext) (emp_id : String) (d : Int) :
    List String :=
  (availAllowed ctx emp_id d).dedup

/-- Every shift code mentioned anywhere in `ctx.availability` (the
discovery loop that builds `all_shift_codes`, before its dedup). -/
def availabilityCodes (ctx : SystemContext) : List String :=
  ctx.availability.flatMap (fun p =>
    p.2.allowed_shift_codes_by_date.flatMap (fun q => q.2))

/-- `_rest_hours_between_codes(code_prev, code_next)` in exact minutes:
rest between the end of `code_prev` on day D and the start of
`code_next` on day D+1; unknown codes are treated as safe
(24 h = 1440 min). -/
def restMinutesBetweenCodes (tpls : ShiftCatalog)
    (code_prev code_next : String) : Int :=
  match alookup tpls code_prev, alookup tpls code_next with
  | some tp, some tn => 1440 + tn.start.toMin - tp.stop.toMin
  | _, _ => 1440

/-- Membership in `OPENING_SHIFT_CODES`: the module-level loop marks a
code as "opening" when `start.hour < 7 or (start.hour == 7 and
start.minute == 0)`. -/
def isOpeningStart (t : TimeHM) : Bool :=
  t.hour < 7 || (t.hour == 7 && t.minute == 0)

/-- Membership in `CLOSING_SHIFT_CODES`: the module-level loop marks a
code as "closing" when `end.hour > 22 or (end.hour == 22 and
end.minute == 0)`. -/
def isClosingStop (t : TimeHM) : Bool :=
  t.hour > 22 || (t.hour == 22 && t.minute == 0)

/-- `OPENING_SHIFT_CODES` built from the catalog. -/
def OPENING_SHIFT_CODES (tpls : ShiftCatalog) : List String :=
  (tpls.filter (fun p => isOpeningStart p.2.start)).map (fun p => p.1)

/-- `CLOSING_SHIFT_CODES` built from the catalog. -/
def CLOSING_SHIFT_CODES (tpls : ShiftCatalog) : List String :=
  (tpls.filter (fun p => isClosingStop p.2.stop)).map (fun p => p.1)

/-- `_covers_lunch_window`: the shift overlaps 11:00–14:00. -/
def coversLunchWindow (tpls : ShiftCatalog) (shift_code : String) : Bool :=
  match alookup tpls shift_code with
  | none => false
  | some t => timeLe t.start ⟨14, 0⟩ && timeLe ⟨11, 0⟩ t.stop

/-- `_covers_dinner_window`: the shift overlaps 17:00–21:00. -/
def coversDinnerWindow (tpls : ShiftCatalog) (shift_code : String) : Bool :=
  match alookup tpls shift_code with
  | none => false
  | some t => timeLe t.start ⟨21, 0⟩ && timeLe ⟨17, 0⟩ t.stop

/-- `int(sum(ctx.demand_by_date.get(dt, {}).values()))`. -/
def demandToday (ctx : SystemContext) (d : Int) : Int :=
  match dlookup ctx.demand_by_date d with
  | none => 0
  | some m => (m.map (fun q => q.2)).sum

/-- A candidate value assignment for every variable family the builder
creates: the booleans `x[e, d, s]`, the per-day under-coverage slacks,
the per-(employee, week) overtime slacks, the three manager-absence
indicator families and the two peak-gap families. -/
structure GenSolution where
  x : String → Int → String → Bool
  uc : Int → Int
  ot : String → Int → Int
  noMgr : Int → Bool
  noMgrOpen : Int → Bool
  noMgrClose : Int → Bool
  gapLunch : Int → Int
  gapDinner : Int → Int

/-- 0/1 value of `x[e, d, s]`. -/
def xI (sol : GenSolution) (e : String) (d : Int) (s : String) : Int :=
  if sol.x e d s then 1 else 0

/-- The term `units * x[e, d, s]` of the hour constraints; codes with
no template are skipped by the builder (`continue`) and contribute
nothing. -/
def unitsTerm (tpls : ShiftCatalog) (sol : GenSolution) (e : String)
    (d : Int) (s : String) : Int :=
  match alookup tpls s with
  | none => 0
  | some t => pyRoundHalfUnits t.hours * xI sol e d s

/-- Hard constraint 2 sum: total assigned half-hour units of employee
`e` over the window. -/
def totalUnits (tpls : ShiftCatalog) (ctx : SystemContext)
    (sol : GenSolution) (e : String) (ds : List Int) : Int :=
  (ds.map (fun d =>
    ((allowedCodesOn ctx e d).map (unitsTerm tpls sol e d)).sum)).sum

/-- Constraint 2b sum: assigned half-hour units of employee `e` in
week bucket `w`. -/
def weekUnits (tpls : ShiftCatalog) (ctx : SystemContext)
    (sol : GenSolution) (e : String) (ds : List Int) (start_date w : Int) :
    Int :=
  ((ds.filter (fun d => weekIndexOf start_date d == w)).map (fun d =>
    ((allowedCodesOn ctx e d).map (unitsTerm tpls sol e d)).sum)).sum

/-- Whether `week_terms` is non-empty for employee `e` and week `w`
(some date of the week has some allowed code with a known template;
the decision variable itself exists for every allowed code). -/
def weekTermsExist (tpls : ShiftCatalog) (ctx : SystemContext)
    (e : String) (ds : List Int) (start_date w : Int) : Bool :=
  (ds.filter (fun d => weekIndexOf start_date d == w)).any (fun d =>
    (allowedCodesOn ctx e d).any (fun s => (alookup tpls s).isSome))

/-- Number of assigned shifts of all employees on date `d`
(`sum(day_vars)` of the demand constraint). -/
def daySum (ctx : SystemContext) (sol : GenSolution) (d : Int) : Int :=
  ((ctx.employees.map (fun p =>
    ((allowedCodesOn ctx p.2.id d).map (xI sol p.2.id d)).sum))).sum

/-- Whether any decision variable exists on date `d` (`day_vars`
non-empty). -/
def dayVarsExist (ctx : SystemContext) (d : Int) : Bool :=
  ctx.employees.any (fun p => !(allowedCodesOn ctx p.2.id d).isEmpty)

/-- `manager_ids`: employees carrying the MANAGER skill tag. -/
def managerIds (ctx : SystemContext) : List String :=
  ((ctx.employees.map (fun p => p.2)).filter (fun e =>
    e.skill_tags.contains SkillTag.manager)).map (fun e => e.id)

/-- The manager-held decision variables on date `d`, optionally
restricted to a code subset, summed as 0/1 values.  The loop guard is
`emp.id not in manager_ids`. -/
def mgrSum (ctx : SystemContext) (sol : GenSolution) (d : Int)
    (codeFilter : String → Bool) : Int :=
  (((ctx.employees.map (fun p => p.2)).filter (fun e =>
      (managerIds ctx).contains e.id)).map (fun e =>
    (((allowedCodesOn ctx e.id d).filter codeFilter).map
      (xI sol e.id d)).sum)).sum

/-- Whether the manager variable list on date `d` (restricted by
`codeFilter`) is non-empty. -/
def mgrVarsExist (ctx : SystemContext) (d : Int)
    (codeFilter : String → Bool) : Bool :=
  ((ctx.employees.map (fun p => p.2)).filter (fun e =>
      (managerIds ctx).contains e.id)).any (fun e =>
    !((allowedCodesOn ctx e.id d).filter codeFilter).isEmpty)

/-- Constraint family 1: at most one shift per employee per day
(sum of the employee/day's boolean variables ≤ 1; the `if codes:` and
`if vars_for_emp_day:` guards only skip a trivially true `0 ≤ 1`). -/
def conOneShiftPerDay (ctx : SystemContext) (ds : List Int)
    (emps : List Employee) (sol : GenSolution) : Prop :=
  ∀ emp ∈ emps, ∀ d ∈ ds,
    ((allowedCodesOn ctx emp.id d).countP (fun s => sol.x emp.id d s)) ≤ 1

/-- Constraint family 2: bi-weekly contract maximum in half-hour
units. -/
def conBiweeklyMax (tpls : ShiftCatalog) (ctx : SystemContext)
    (ds : List Int) (emps : List Employee) (sol : GenSolution) : Prop :=
  ∀ emp ∈ emps,
    totalUnits tpls ctx sol emp.id ds ≤
      pyRoundHalfUnits (CONTRACT_HOURS_BOUNDS emp.contract_type).2

/-- Constraint family 2b: weekly maximum with ranged overtime slack. -/
def conWeeklyOvertime (tpls : ShiftCatalog) (ctx : SystemContext)
    (ds : List Int) (emps : List Employee) (start_date : Int)
    (sol : GenSolution) : Prop :=
  ∀ emp ∈ emps, ∀ w ∈ (ds.map (weekIndexOf start_date)).dedup,
    weekTermsExist tpls ctx emp.id ds start_date w = true →
      0 ≤ sol.ot emp.id w ∧
      sol.ot emp.id w ≤
        pyRoundHalfUnits
          (WEEKLY_CONTRACT_HOURS_BOUNDS emp.contract_type).2 * 2 ∧
      weekUnits tpls ctx sol emp.id ds start_date w ≤
        pyRoundHalfUnits
          (WEEKLY_CONTRACT_HOURS_BOUNDS emp.contract_type).2 +
        sol.ot emp.id w

/-- Constraint family 3: pairwise rest exclusion between consecutive
days. -/
def conRestExclusion (tpls : ShiftCatalog) (ctx : SystemContext)
    (ds : List Int) (emps : List Employee) (sol : GenSolution) : Prop :=
  ∀ emp ∈ emps, ∀ d ∈ ds, (d + 1) ∈ ds →
    ∀ c1 ∈ allowedCodesOn ctx emp.id d,
      ∀ c2 ∈ allowedCodesOn ctx emp.id (d + 1),
        restMinutesBetweenCodes tpls c1 c2 < MIN_REST_MINUTES →
          ¬(sol.x emp.id d c1 = true ∧ sol.x emp.id (d + 1) c2 = true)

/-- Constraint family 4: per-date demand coverage with the
under-coverage slack, or a pinned zero slack. -/
def conDemand (ctx : SystemContext) (ds : List Int)
    (emps : List Employee) (sol : GenSolution) : Prop :=
  ∀ d ∈ ds,
    0 ≤ sol.uc d ∧ sol.uc d ≤ (emps.length : Int) ∧
    (if dayVarsExist ctx d = true ∧ demandToday ctx d > 0 then
      daySum ctx sol d + sol.uc d ≥ demandToday ctx d
    else sol.uc d = 0)

/-- Constraint family 5: the manager-absence indicator constraints. -/
def conManagerIndicators (tpls : ShiftCatalog) (ctx : SystemContext)
    (ds : List Int) (sol : GenSolution) : Prop :=
  managerIds ctx ≠ [] → ∀ d ∈ ds,
    mgrVarsExist ctx d (fun _ => true) = true →
      ((sol.noMgr d = true → mgrSum ctx sol d (fun _ => true) = 0) ∧
       (sol.noMgr d = false → 1 ≤ mgrSum ctx sol d (fun _ => true))) ∧
      (mgrVarsExist ctx d
          (fun s => (OPENING_SHIFT_CODES tpls).contains s) = true →
        (sol.noMgrOpen d = true →
          mgrSum ctx sol d
            (fun s => (OPENING_SHIFT_CODES tpls).contains s) = 0) ∧
        (sol.noMgrOpen d = false →
          1 ≤ mgrSum ctx sol d
            (fun s => (OPENING_SHIFT_CODES tpls).contains s))) ∧
      (mgrVarsExist ctx d
          (fun s => (CLOSING_SHIFT_CODES tpls).contains s) = true →
        (sol.noMgrClose d = true →
          mgrSum ctx sol d
            (fun s => (CLOSING_SHIFT_CODES tpls).contains s) = 0) ∧
        (sol.noMgrClose d = false →
          1 ≤ mgrSum ctx sol d
            (fun s => (CLOSING_SHIFT_CODES tpls).contains s)))

/-- Constraint family 6: the peak two-manager gap bounds. -/
def conPeakGaps (tpls : ShiftCatalog) (ctx : SystemContext)
    (ds : List Int) (sol : GenSolution) : Prop :=
  managerIds ctx ≠ [] → ∀ d ∈ ds,
    (mgrVarsExist ctx d (coversLunchWindow tpls) = true →
      0 ≤ sol.gapLunch d ∧ sol.gapLunch d ≤ 2 ∧
      2 - mgrSum ctx sol d (coversLunchWindow tpls) ≤ sol.gapLunch d) ∧
    (mgrVarsExist ctx d (coversDinnerWindow tpls) = true →
      0 ≤ sol.gapDinner d ∧ sol.gapDinner d ≤ 2 ∧
      2 - mgrSum ctx sol d (coversDinnerWindow tpls) ≤ sol.gapDinner d)

instance conOneShiftPerDayDecidable (ctx : SystemContext)
    (ds : List Int) (emps : List Employee) (sol : GenSolution) :
    Decidable (conOneShiftPerDay ctx ds emps sol) := by
  unfold conOneShiftPerDay; infer_instance

instance conBiweeklyMaxDecidable (tpls : ShiftCatalog)
    (ctx : SystemContext) (ds : List Int) (emps : List Employee)
    (sol : GenSolution) :
    Decidable (conBiweeklyMax tpls ctx ds emps sol) := by
  unfold conBiweeklyMax; infer_instance

instance conWeeklyOvertimeDecidable (tpls : ShiftCatalog)
    (ctx : SystemContext) (ds : List Int) (emps : List Employee)
    (start_date : Int) (sol : GenSolution) :
    Decidable (conWeeklyOvertime tpls ctx ds emps start_date sol) := by
  unfold conWeeklyOvertime; infer_instance

instance conRestExclusionDecidable (tpls : ShiftCatalog)
    (ctx : SystemContext) (ds : List Int) (emps : List Employee)
    (sol : GenSolution) :
    Decidable (conRestExclusion tpls ctx ds emps sol) := by
  unfold conRestExclusion; infer_instance

instance conDemandDecidable (ctx : SystemContext) (ds : List Int)
    (emps : List Employee) (sol : GenSolution) :
    Decidable (conDemand ctx ds emps sol) := by
  unfold conDemand; infer_instance

instance conManagerIndicatorsDecidable (tpls : ShiftCatalog)
    (ctx : SystemContext) (ds : List Int) (sol : GenSolution) :
    Decidable (conManagerIndicators tpls ctx ds sol) := by
  unfold conManagerIndicators; infer_instance

instance conPeakGapsDecidable (tpls : ShiftCatalog)
    (ctx : SystemContext) (ds : List Int) (sol : GenSolution) :
    Decidable (conPeakGaps tpls ctx ds sol) := by
  unfold conPeakGaps; infer_instance

/-- The conjunction of every hard constraint
`CandidateGeneratorAgent.generate_initial_roster` adds to the CP-SAT
model, for a candidate solution `sol`, over a given date list and
employee-value list: the `if terms:` guard of the bi-weekly hour
constraint only skips a trivially true `0 ≤ max` inequality and is
dropped; each indicator/slack family is constrained exactly where the
source creates the corresponding variable. -/
def genHardConstraintsOn (tpls : ShiftCatalog) (ctx : SystemContext)
    (ds : List Int) (emps : List Employee) (start_date : Int)
    (sol : GenSolution) : Prop :=
  conOneShiftPerDay ctx ds emps sol ∧
  conBiweeklyMax tpls ctx ds emps sol ∧
  conWeeklyOvertime tpls ctx ds emps start_date sol ∧
  conRestExclusion tpls ctx ds emps sol ∧
  conDemand ctx ds emps sol ∧
  conManagerIndicators tpls ctx ds sol ∧
  conPeakGaps tpls ctx ds sol

instance genHardConstraintsOnDecidable (tpls : ShiftCatalog)
    (ctx : SystemContext) (ds : List Int) (emps : List Employee)
    (start_date : Int) (sol : GenSolution) :
    Decidable (genHardConstraintsOn tpls ctx ds emps start_date sol) := by
  unfold genHardConstraintsOn
  infer_instance

/-- The full hard-constraint set of the model built for the window
`[start_date, end_date]`: `genHardConstraintsOn` at the window's date
list and at `list(ctx.employees.values())`. -/
def genHardConstraints (tpls : ShiftCatalog) (ctx : SystemContext)
    (start_date end_date : Int) (sol : GenSolution) : Prop :=
  genHardConstraintsOn tpls ctx (datesList start_date end_date)
    (ctx.employees.map (fun p => p.2)) start_date sol

instance genHardConstraintsDecidable (tpls : ShiftCatalog)
    (ctx : SystemContext) (start_date end_date : Int)
    (sol : GenSolution) :
    Decidable (genHardConstraints tpls ctx start_date end_date sol) := by
  unfold genHardConstraints
  infer_instance

/-- Decoding a solution into a roster's assignment list: one
`ShiftAssignment` per variable valued 1, in variable-creation order
(Python dicts iterate in insertion order, and the variables are
created employee-by-employee, date-by-date, code-by-code). -/
def decodeFor (ctx : SystemContext) (store_id : String)
    (start_date end_date : Int) (sol : GenSolution)
    (p : String × Employee) : List ShiftAssignment :=
  (datesList start_date end_date).flatMap (fun d =>
    (allowedCodesOn ctx p.2.id d).filterMap (fun s =>
      if sol.x p.2.id d s then
        some { employee_id := p.2.id, date := d, shift_code := s,
               station := none, store_id := store_id }
      else none))

/-- All decoded assignments, employee by employee. -/
def decodeAssignments (ctx : SystemContext) (store_id : String)
    (start_date end_date : Int) (sol : GenSolution) :
    List ShiftAssignment :=
  ctx.employees.flatMap (decodeFor ctx store_id start_date end_date sol)

/-- The roster decoded from a solver solution. -/
def decodeRoster (ctx : SystemContext) (store_id : String)
    (start_date end_date : Int) (sol : GenSolution) : Roster :=
  { store_id := store_id, start_date := start_date,
    end_date := end_date,
    assignments := decodeAssignments ctx store_id start_date end_date sol }

/-- `cp_model` solver status values. -/
inductive CpStatus where
  | optimal
  | feasible
  | infeasible
  | unknown_status
  | model_invalid
deriving DecidableEq

/-- `CandidateGeneratorAgent.generate_initial_roster`, with the
external solver's response (a status plus, when it found one, a
variable assignment) passed in as a parameter: the control flow raises
`ValueError` on an empty employee set, then `ValueError` when no shift
code is discoverable from availability, then builds and solves the
model, raises `RuntimeError` unless the status is OPTIMAL or FEASIBLE,
and otherwise decodes the solution into a roster.  Nothing else in the
function can raise. -/
def generateInitialRoster (ctx : SystemContext) (store_id : String)
    (start_date end_date : Int) (status : CpStatus) (sol : GenSolution) :
    Except String Roster :=
  if ctx.employees.isEmpty then
    Except.error "No employees found in context."
  else if (availabilityCodes ctx).dedup.isEmpty then
    Except.error "No shift codes discovered from availability."
  else if status = CpStatus.optimal ∨ status = CpStatus.feasible then
    Except.ok (decodeRoster ctx store_id start_date end_date sol)
  else
    Except.error "CP-SAT solver failed"

/-!
Concrete instances used by the counterexamples and witnesses below.
-/

/-- A casual-contract employee with id `"E1"`. -/
def empCasual : Employee :=
  { id := "E1", name := "Alice", contract_type := ContractType.casual,
    skill_tags := [] }

/-- A second casual-contract employee with id `"E2"`. -/
def empCasual2 : Employee :=
  { id := "E2", name := "Bob", contract_type := ContractType.casual,
    skill_tags := [] }

/-- A full-time employee with id `"F1"`. -/
def empFullTime : Employee :=
  { id := "F1", name := "Carol", contract_type := ContractType.full_time,
    skill_tags := [] }

/-- The all-selected candidate solution (every decision variable 1,
every slack and indicator 0 / false). -/
def solOn : GenSolution :=
  { x := fun _ _ _ => true, uc := fun _ => 0, ot := fun _ _ => 0,
    noMgr := fun _ => false, noMgrOpen := fun _ => false,
    noMgrClose := fun _ => false, gapLunch := fun _ => 0,
    gapDinner := fun _ => 0 }

/-- The empty candidate solution (every variable 0 / false). -/
def solOff : GenSolution :=
  { x := fun _ _ _ => false, uc := fun _ => 0, ot := fun _ _ => 0,
    noMgr := fun _ => false, noMgrOpen := fun _ => false,
    noMgrClose := fun _ => false, gapLunch := fun _ => 0,
    gapDinner := fun _ => 0 }

/-- Context whose only employee is available for seven consecutive
days with the shift code `"X"`, which has no catalog template. -/
def ctxUnknownCode : SystemContext :=
  { employees := [("E1", empCasual)],
    availability := [("E1",
      { employee_id := "E1",
        allowed_shift_codes_by_date :=
          [(0, ["X"]), (1, ["X"]), (2, ["X"]), (3, ["X"]), (4, ["X"]),
           (5, ["X"]), (6, ["X"])] })],
    demand_by_date := [] }

/-- Context whose only employee is available once for the catalog
code `"S"`. -/
def ctxKnownCode : SystemContext :=
  { employees := [("E1", empCasual)],
    availability := [("E1",
      { employee_id := "E1",
        allowed_shift_codes_by_date := [(0, ["S"])] })],
    demand_by_date := [] }

/-- Context with one (non-manager) employee who is available only on
day 1 (for the catalog code `"S"`), and a demand of one head on day 0:
the discovery loop finds the code `"S"`, so `generate_initial_roster`
proceeds past its abort checks and builds the model for the window
`[0, 1]`, in which day 0 carries demand but no employee has any
allowed shift code. -/
def ctxDemandNoStaffDay : SystemContext :=
  { employees := [("E1", empCasual)],
    availability := [("E1",
      { employee_id := "E1",
        allowed_shift_codes_by_date := [(1, ["S"])] })],
    demand_by_date := [(0, [(SkillTag.kitchen, 1)])] }

/-- Context with one full-time employee. -/
def ctxFullTime : SystemContext :=
  { employees := [("F1", empFullTime)],
    availability := [], demand_by_date := [] }

/-- A 21-day roster whose single assignment sits in week bucket 2. -/
def rosterWeek3 : Roster :=
  { store_id := "store_1", start_date := 0, end_date := 20,
    assignments := [{ employee_id := "F1", date := 14,
                      shift_code := "S", station := none,
                      store_id := "store_1" }] }

/-- A 14-day roster whose single assignment sits in week bucket 0. -/
def rosterWeek1 : Roster :=
  { store_id := "store_1", start_date := 0, end_date := 13,
    assignments := [{ employee_id := "F1", date := 0,
                      shift_code := "S", station := none,
                      store_id := "store_1" }] }

/-- Context for the resolver examples: overloadable `"E1"` plus
`"E2"`, who is available for `"S"` on day 5. -/
def ctxRebalance : SystemContext :=
  { employees := [("E1", empCasual), ("E2", empCasual2)],
    availability := [("E2",
      { employee_id := "E2",
        allowed_shift_codes_by_date := [(5, ["S"])] })],
    demand_by_date := [] }

/-- Six 8.5 h `"S"` shifts for `"E1"` (51 h, above the 48 h casual
bi-weekly cap). -/
def rosterOverloaded : Roster :=
  { store_id := "store_1", start_date := 0, end_date := 13,
    assignments :=
      [{ employee_id := "E1", date := 0, shift_code := "S",
         station := none, store_id := "store_1" },
       { employee_id := "E1", date := 1, shift_code := "S",
         station := none, store_id := "store_1" },
       { employee_id := "E1", date := 2, shift_code := "S",
         station := none, store_id := "store_1" },
       { employee_id := "E1", date := 3, shift_code := "S",
         station := none, store_id := "store_1" },
       { employee_id := "E1", date := 4, shift_code := "S",
         station := none, store_id := "store_1" },
       { employee_id := "E1", date := 5, shift_code := "S",
         station := none, store_id := "store_1" }] }

/-- Catalog for the weekly-tolerance boundary: code `"W"` lasts
26.01 h (2601 centihours = casual weekly max 24 h + 2.01 h) and code
`"V"` lasts 26.00 h (= max + 2.00 h exactly). -/
def tplsTolerance : ShiftCatalog :=
  [ ("W", { start := ⟨8, 0⟩, stop := ⟨10, 0⟩, hours := 2601 }),
    ("V", { start := ⟨8, 0⟩, stop := ⟨10, 0⟩, hours := 2600 }) ]

/-- Context with the two casual employees for the weekly-tolerance
boundary. -/
def ctxTolerance : SystemContext :=
  { employees := [("E1", empCasual), ("E2", empCasual2)],
    availability := [], demand_by_date := [] }

/-- `"E1"` works one `"W"` shift (max + 2.01 h in week 0), `"E2"`
one `"V"` shift (max + 2.00 h in week 0). -/
def rosterTolerance : Roster :=
  { store_id := "store_1", start_date := 0, end_date := 13,
    assignments :=
      [{ employee_id := "E1", date := 0, shift_code := "W",
         station := none, store_id := "store_1" },
       { employee_id := "E2", date := 1, shift_code := "V",
         station := none, store_id := "store_1" }] }

/-- Context with the single casual employee `"E1"` (used for the
consecutive-day example). -/
def ctxSingle : SystemContext :=
  { employees := [("E1", empCasual)],
    availability := [], demand_by_date := [] }

/-- Seven consecutive `"S"` days for `"E1"`. -/
def rosterSevenDays : Roster :=
  { store_id := "store_1", start_date := 0, end_date := 13,
    assignments :=
      [{ employee_id := "E1", date := 0, shift_code := "S",
         station := none, store_id := "store_1" },
       { employee_id := "E1", date := 1, shift_code := "S",
         station := none, store_id := "store_1" },
       { employee_id := "E1", date := 2, shift_code := "S",
         station := none, store_id := "store_1" },
       { employee_id := "E1", date := 3, shift_code := "S",
         station := none, store_id := "store_1" },
       { employee_id := "E1", date := 4, shift_code := "S",
         station := none, store_id := "store_1" },
       { employee_id := "E1", date := 5, shift_code := "S",
         station := none, store_id := "store_1" },
       { employee_id := "E1", date := 6, shift_code := "S",
         station := none, store_id := "store_1" }] }

/-- The fields of a `ShiftAssignment` other than the employee id
(used to state what the resolver never changes). -/
def assignmentShape (a : ShiftAssignment) :
    Int × String × Option SkillTag × String :=
  (a.date, a.shift_code, a.station, a.store_id)

/-!
Theorems.  First a small library of facts about the embedding, then
one theorem (plus witness / counterexample) per claim.
-/

theorem insertStable_perm {α : Type} (le : α → α → Bool) (a : α)
    (l : List α) : (insertStable le a l).Perm (a :: l) := by
  induction l with
  | nil => simp [insertStable]
  | cons b bs ih =>
    simp only [insertStable]
    split
    · exact ((ih.cons b).trans (List.Perm.swap a b bs))
    · exact List.Perm.refl _

theorem stableSort_aux_perm {α : Type} (le : α → α → Bool)
    (l acc : List α) :
    (l.foldl (fun acc a => insertStable le a acc) acc).Perm (acc ++ l) := by
  induction l generalizing acc with
  | nil => simp
  | cons a t ih =>
    simp only [List.foldl_cons]
    refine (ih (insertStable le a acc)).trans ?_
    have h1 : (insertStable le a acc ++ t).Perm ((a :: acc) ++ t) :=
      (insertStable_perm le a acc).append_right t
    refine h1.trans ?_
    simpa using (@List.perm_middle α a acc t).symm

theorem stableSort_perm {α : Type} (le : α → α → Bool) (l : List α) :
    (stableSort le l).Perm l := by
  simpa [stableSort] using stableSort_aux_perm le l []

theorem mem_stableSort {α : Type} {le : α → α → Bool} {l : List α}
    {a : α} : a ∈ stableSort le l ↔ a ∈ l :=
  (stableSort_perm le l).mem_iff

theorem mem_zip_tail {α : Type} {l : List α} {x y : α}
    (h : (x, y) ∈ l.zip l.tail) : x ∈ l ∧ y ∈ l := by
  induction l with
  | nil => simp at h
  | cons a t ih =>
    cases t with
    | nil => simp at h
    | cons b t2 =>
      simp only [List.tail_cons, List.zip_cons_cons, List.mem_cons,
        Prod.mk.injEq] at h
      rcases h with ⟨rfl, rfl⟩ | h
      · exact ⟨List.mem_cons_self .., List.mem_cons_of_mem _
          (List.mem_cons_self ..)⟩
      · have := ih (by simpa using h)
        exact ⟨List.mem_cons_of_mem _ this.1, List.mem_cons_of_mem _ this.2⟩

theorem alookup_mem {β : Type} {l : List (String × β)} {k : String}
    {b : β} (h : alookup l k = some b) : (k, b) ∈ l := by
  unfold alookup at h
  cases hf : l.find? (fun p => p.1 == k) with
  | none => simp [hf] at h
  | some p =>
    simp only [hf, Option.map_some] at h
    have hmem := List.mem_of_find?_eq_some hf
    have hkey := List.find?_some hf
    simp only [beq_iff_eq] at hkey
    cases h
    have : p = (k, p.2) := by
      cases p; simp_all
    rwa [← this]

theorem dlookup_mem {β : Type} {l : List (Int × β)} {k : Int}
    {b : β} (h : dlookup l k = some b) : (k, b) ∈ l := by
  unfold dlookup at h
  cases hf : l.find? (fun p => p.1 == k) with
  | none => simp [hf] at h
  | some p =>
    simp only [hf, Option.map_some] at h
    have hmem := List.mem_of_find?_eq_some hf
    have hkey := List.find?_some hf
    simp only [beq_iff_eq] at hkey
    cases h
    have : p = (k, p.2) := by
      cases p; simp_all
    rwa [← this]

theorem alookup_eq_of_mem_nodup {β : Type} {l : List (String × β)}
    {p : String × β} (hnd : (l.map (fun q => q.1)).Nodup) (hp : p ∈ l) :
    alookup l p.1 = some p.2 := by
  induction l with
  | nil => simp at hp
  | cons q t ih =>
    simp only [List.map_cons, List.nodup_cons] at hnd
    rcases List.mem_cons.mp hp with rfl | hp'
    · simp [alookup, List.find?_cons]
    · have hne : q.1 ≠ p.1 := by
        intro he
        exact hnd.1 (he ▸ (List.mem_map.mpr ⟨p, hp', rfl⟩))
      have := ih hnd.2 hp'
      simpa [alookup, List.find?_cons, beq_eq_false_iff_ne.mpr hne]
        using this

theorem entry_eq_of_keys_nodup {β : Type} {l : List (String × β)}
    {p q : String × β} (hnd : (l.map (fun r => r.1)).Nodup)
    (hp : p ∈ l) (hq : q ∈ l) (hk : p.1 = q.1) : p = q := by
  have h1 := alookup_eq_of_mem_nodup hnd hp
  have h2 := alookup_eq_of_mem_nodup hnd hq
  rw [hk, h2] at h1
  cases p; cases q
  simp_all

theorem pyRoundHalfUnits_of_dvd {c : Int} (h : 50 ∣ c) :
    pyRoundHalfUnits c = c / 50 := by
  obtain ⟨k, rfl⟩ := h
  have h50 : (50 : Int) ≠ 0 := by norm_num
  unfold pyRoundHalfUnits
  rw [Int.mul_fdiv_cancel_left k h50, Int.mul_fmod_right]
  norm_num

/-- C5.  The spec claims: a code is classified "opening" iff its start
time is ≤ 07:00, and "closing" iff its end time is ≥ 22:00.  The
opening half matches the code exactly, but the closing test
`end.hour > 22 or (end.hour == 22 and end.minute == 0)` rejects any
end time strictly between 22:00 and 23:00: an end time of 22:30 is at
or after 22:00 yet is not classified as closing, contradicting both
the spec sentence and the source's own comment ("Closing: ends at or
after 22:00"). -/
theorem C5_closing_classification_code_bug :
    (∀ t : TimeHM, isOpeningStart t = timeLe t ⟨7, 0⟩) ∧
    timeLe ⟨22, 0⟩ ⟨22, 30⟩ = true ∧
    isClosingStop ⟨22, 30⟩ = false ∧
    CLOSING_SHIFT_CODES
      [("L8", { start := ⟨14, 0⟩, stop := ⟨22, 30⟩, hours := 850 })] = [] := by
  refine ⟨fun t => ?_, by decide, by decide, by decide⟩
  rcases t with ⟨h, m⟩
  cases m with
  | zero => simp [isOpeningStart, timeLe]
  | succ m => simp [isOpeningStart, timeLe]

/-- C8.  `generate_initial_roster` aborts (raises, producing no
partial roster) exactly when the employee set is empty, or no shift
code is discoverable from availability, or the solver status is
neither OPTIMAL nor FEASIBLE; in every other case it returns a
roster. -/
theorem C8_generator_abort_conditions (ctx : SystemContext)
    (store_id : String) (sd ed : Int) (status : CpStatus)
    (sol : GenSolution) :
    (∃ r, generateInitialRoster ctx store_id sd ed status sol =
      Except.ok r) ↔
    (ctx.employees ≠ [] ∧ availabilityCodes ctx ≠ [] ∧
      (status = CpStatus.optimal ∨ status = CpStatus.feasible)) := by
  unfold generateInitialRoster
  split_ifs with h1 h2 h3
  · simp_all [List.isEmpty_iff]
  · simp_all [List.isEmpty_iff, List.dedup_eq_nil]
  · simp_all [List.isEmpty_iff, List.dedup_eq_nil]
  · simp_all [List.isEmpty_iff, List.dedup_eq_nil]

/-- C2, counterexample.  On a date with positive total demand and no
available staff, the claim says the under-coverage slack is forced to
absorb the entire demand; but the builder's `else` branch pins the
slack to zero instead.  The context reaches the model: the discovery
loop finds the code `"S"` (available on day 1), so
`generate_initial_roster` proceeds past every abort check and returns
a decoded roster — yet a solution satisfying every hard constraint of
the model it builds has slack 0, not ≥ 1, on the demand-bearing
day 0. -/
theorem C2_counterexample :
    generateInitialRoster ctxDemandNoStaffDay "store_1" 0 1
        CpStatus.optimal solOff
      = Except.ok (decodeRoster ctxDemandNoStaffDay "store_1" 0 1
          solOff) ∧
    genHardConstraints DEFAULT_SHIFT_TEMPLATES ctxDemandNoStaffDay 0 1
      solOff ∧
    demandToday ctxDemandNoStaffDay 0 = 1 ∧
    allowedCodesOn ctxDemandNoStaffDay "E1" 0 = [] ∧
    allowedCodesOn ctxDemandNoStaffDay "E1" 1 = ["S"] ∧
    solOff.uc 0 = 0 :=
  ⟨rfl, by decide, by decide, by decide, by decide, by decide⟩

/-- C2, amended.  For every date in the window with positive total
demand on which no employee has any allowed shift code, the builder
adds only the constraint `under_coverage == 0` for that day: the model
never becomes infeasible through that day, but the slack absorbs none
of the demand — every solution of the hard constraints has zero slack
there. -/
theorem C2_amended_slack_pinned_zero (tpls : ShiftCatalog)
    (ctx : SystemContext) (sd ed : Int) (sol : GenSolution) (d : Int)
    (hd : d ∈ datesList sd ed)
    (hdem : 0 < demandToday ctx d)
    (hno : ∀ p ∈ ctx.employees, allowedCodesOn ctx p.2.id d = [])
    (hsat : genHardConstraints tpls ctx sd ed sol) :
    sol.uc d = 0 := by
  unfold genHardConstraints genHardConstraintsOn at hsat
  obtain ⟨-, -, -, -, hdemand, -, -⟩ := hsat
  unfold conDemand at hdemand
  have h := hdemand d hd
  have hfalse : dayVarsExist ctx d = false := by
    unfold dayVarsExist
    rw [List.any_eq_false]
    intro p hp
    simp [hno p hp]
  rw [if_neg] at h
  · exact h.2.2
  · simp [hfalse]

/-- C2, witness for the amended theorem at the concrete instance whose
window `[0, 1]` carries demand on day 0 and staff availability only on
day 1. -/
theorem C2_amended_witness : solOff.uc 0 = 0 :=
  C2_amended_slack_pinned_zero DEFAULT_SHIFT_TEMPLATES
    ctxDemandNoStaffDay 0 1 solOff 0 (by decide) (by decide) (by decide)
    (by decide)

/-- C1, counterexample.  A solution satisfying every hard constraint
of the model can still fail the oracle's bi-weekly maximum check: the
shift code `"X"` has no catalog template, so the builder's hour
constraints skip it entirely, while the oracle charges the 8 h
default per assignment.  Seven `"X"` days give the casual employee
56 h > 48 h and exactly one `MAX_HOURS_EXCEEDED`. -/
theorem C1_counterexample :
    genHardConstraints DEFAULT_SHIFT_TEMPLATES ctxUnknownCode 0 6 solOn ∧
    countViol
      (checkRoster DEFAULT_SHIFT_TEMPLATES ctxUnknownCode
        (decodeRoster ctxUnknownCode "store_1" 0 6 solOn))
      "MAX_HOURS_EXCEEDED" = 1 := by decide

/-- C3, counterexample.  The claim says every 7-day bucket (0, 1, …)
in which an employee has assignments is checked against the weekly
minimum; but `check_roster` iterates only `week_index in (0, 1)`.  In
a 21-day roster, a full-time employee whose only assignment lies in
bucket 2 (8.5 h, far below the 35 h weekly minimum) triggers no
`WEEKLY_MIN_HOURS_NOT_MET` at all. -/
theorem C3_counterexample :
    weeklyKeyPresent rosterWeek3 "F1" 2 = true ∧
    weeklyHoursFor DEFAULT_SHIFT_TEMPLATES rosterWeek3 "F1" 2 = 850 ∧
    (850 : Int) <
      (WEEKLY_CONTRACT_HOURS_BOUNDS empFullTime.contract_type).1 ∧
    countViol (checkRoster DEFAULT_SHIFT_TEMPLATES ctxFullTime rosterWeek3)
      "WEEKLY_MIN_HOURS_NOT_MET" = 0 := by decide

/-- C4, counterexample.  The claim says the input `Roster` and the
`ShiftAssignment` values it contains are unchanged after
`rebalance_hours`.  But `list(roster.assignments)` copies only the
list container; the repair loop mutates the shared assignment objects
in place, so after the call the input roster's assignment values have
changed whenever a reassignment occurred — as in this overloaded
instance. -/
theorem C4_counterexample :
    inputAssignmentsAfterRebalance DEFAULT_SHIFT_TEMPLATES ctxRebalance
      rosterOverloaded ≠ rosterOverloaded.assignments := by decide

/-- C4, amended.  `rebalance_hours` copies only the list container:
the `ShiftAssignment` objects are shared with the input roster and
patched in place, so after the call the input roster's observable
assignment values coincide with the returned roster's (and are
unchanged exactly when the repair loop performed no reassignment);
the returned value is a fresh `Roster` with the same store id and
date range, built from the patched collection. -/
theorem C4_amended_resolver_aliasing (tpls : ShiftCatalog)
    (ctx : SystemContext) (roster : Roster) (n : Nat) :
    inputAssignmentsAfterRebalance tpls ctx roster n =
      (rebalanceHours tpls ctx roster n).assignments ∧
    (rebalanceHours tpls ctx roster n).store_id = roster.store_id ∧
    (rebalanceHours tpls ctx roster n).start_date = roster.start_date ∧
    (rebalanceHours tpls ctx roster n).end_date = roster.end_date ∧
    (inputAssignmentsAfterRebalance tpls ctx roster n =
        roster.assignments ↔
      (rebalanceHours tpls ctx roster n).assignments =
        roster.assignments) :=
  ⟨rfl, rfl, rfl, rfl, Iff.rfl⟩

theorem mem_biweeklyViolationsEntry {tpls : ShiftCatalog}
    {roster : Roster} {p : String × Employee} {v : Violation}
    (h : v ∈ biweeklyViolationsEntry tpls roster p) :
    v.employee_id = some p.2.id ∧
    (v.code = "MIN_HOURS_NOT_MET" ∨ v.code = "MAX_HOURS_EXCEEDED") := by
  unfold biweeklyViolationsEntry at h
  simp only [List.mem_append] at h
  rcases h with h | h <;> split at h <;> simp_all

theorem mem_weeklyViolationsEntry {tpls : ShiftCatalog}
    {roster : Roster} {p : String × Employee} {v : Violation}
    (h : v ∈ weeklyViolationsEntry tpls roster p) :
    v.employee_id = some p.2.id ∧
    (v.code = "WEEKLY_MIN_HOURS_NOT_MET" ∨
     v.code = "WEEKLY_MAX_HOURS_EXCEEDED") := by
  unfold weeklyViolationsEntry at h
  simp only [List.mem_flatMap] at h
  obtain ⟨w, -, hv⟩ := h
  unfold weeklyViolForWeek at hv
  split at hv
  · simp only [List.mem_append] at hv
    rcases hv with hv | hv <;> repeat' split at hv
    all_goals simp_all
  · simp at hv

theorem mem_casualViolations {tpls : ShiftCatalog}
    {ctx : SystemContext} {roster : Roster} {v : Violation}
    (h : v ∈ casualViolations tpls ctx roster) :
    v.code = "MIN_SHIFT_LENGTH_CASUAL" := by
  unfold casualViolations at h
  simp only [List.mem_filterMap] at h
  obtain ⟨a, -, hv⟩ := h
  repeat' split at hv
  all_goals
    first
      | (cases hv; rfl)
      | simp at hv

theorem mem_restViolationsEntry {tpls : ShiftCatalog}
    {roster : Roster} {p : String × Employee} {v : Violation}
    (h : v ∈ restViolationsEntry tpls roster p) :
    v.employee_id = some p.2.id ∧ v.code = "INSUFFICIENT_REST" := by
  unfold restViolationsEntry at h
  simp only [List.mem_filterMap] at h
  obtain ⟨pr, -, hv⟩ := h
  split at hv
  · simp at hv
  · split at hv
    · simp only [Option.some.injEq] at hv
      cases hv
      exact ⟨rfl, rfl⟩
    · simp at hv

theorem consecWalk_some {emp_id : String} {prev : ShiftAssignment}
    {rest : List ShiftAssignment} {streak : Nat} {v : Violation}
    (h : consecWalk emp_id prev rest streak = some v) :
    v.employee_id = some emp_id ∧
    v.code = "MAX_CONSECUTIVE_DAYS_EXCEEDED" := by
  induction rest generalizing prev streak with
  | nil => simp [consecWalk] at h
  | cons nxt more ih =>
    unfold consecWalk at h
    split at h
    · simp only [Option.some.injEq] at h
      cases h
      exact ⟨rfl, rfl⟩
    · exact ih h

theorem mem_consecViolationsEntry {roster : Roster}
    {p : String × Employee} {v : Violation}
    (h : v ∈ consecViolationsEntry roster p) :
    v.employee_id = some p.2.id ∧
    v.code = "MAX_CONSECUTIVE_DAYS_EXCEEDED" := by
  unfold consecViolationsEntry at h
  split at h
  · simp at h
  · rcases hw : consecWalk p.2.id _ _ 1 with _ | w <;> rw [hw] at h
    · simp at h
    · simp only [Option.toList_some, List.mem_singleton] at h
      subst h
      exact consecWalk_some hw

theorem mem_unknownEmployeeViolations {ctx : SystemContext}
    {roster : Roster} {v : Violation}
    (h : v ∈ unknownEmployeeViolations ctx roster) :
    v.code = "UNKNOWN_EMPLOYEE" := by
  unfold unknownEmployeeViolations at h
  simp only [List.mem_filterMap] at h
  obtain ⟨a, -, hv⟩ := h
  split at hv
  · simp only [Option.some.injEq] at hv
    cases hv
    rfl
  · simp at hv

theorem countP_flatMap_eq_zero {α γ : Type} {l : List α}
    {f : α → List γ} {pred : γ → Bool}
    (h : ∀ q ∈ l, (f q).countP pred = 0) :
    (l.flatMap f).countP pred = 0 := by
  induction l with
  | nil => simp
  | cons q t ih =>
    simp only [List.flatMap_cons, List.countP_append]
    rw [h q (List.mem_cons_self ..), ih (fun r hr =>
      h r (List.mem_cons_of_mem _ hr))]

theorem countP_flatMap_eq_single {β γ : Type} {l : List (String × β)}
    {p : String × β} {f : (String × β) → List γ}
    {pred : γ → Bool}
    (hnd : (l.map (fun q => q.1)).Nodup) (hp : p ∈ l)
    (hzero : ∀ q ∈ l, q.1 ≠ p.1 → (f q).countP pred = 0) :
    (l.flatMap f).countP pred = (f p).countP pred := by
  induction l with
  | nil => simp at hp
  | cons q t ih =>
    simp only [List.map_cons, List.nodup_cons] at hnd
    simp only [List.flatMap_cons, List.countP_append]
    by_cases hqp : q.1 = p.1
    · have hq : q = p :=
        entry_eq_of_keys_nodup (l := q :: t)
          (by simp only [List.map_cons, List.nodup_cons]; exact hnd)
          (List.mem_cons_self ..) hp hqp
      subst hq
      have ht : (t.flatMap f).countP pred = 0 := by
        refine countP_flatMap_eq_zero (fun r hr => ?_)
        refine hzero r (List.mem_cons_of_mem _ hr) (fun he => ?_)
        exact hnd.1 (he ▸ (List.mem_map.mpr ⟨r, hr, rfl⟩))
      omega
    · have hp' : p ∈ t := by
        rcases List.mem_cons.mp hp with rfl | hp'
        · exact absurd rfl hqp
        · exact hp'
      rw [hzero q (List.mem_cons_self ..) hqp,
        ih hnd.2 hp' (fun r hr hne =>
          hzero r (List.mem_cons_of_mem _ hr) hne)]
      simp

theorem flatMap_eq_single {β γ : Type} {l : List (String × β)}
    {p : String × β} {f : (String × β) → List γ}
    (hnd : (l.map (fun q => q.1)).Nodup) (hp : p ∈ l)
    (hnil : ∀ q ∈ l, q.1 ≠ p.1 → f q = []) :
    l.flatMap f = f p := by
  induction l with
  | nil => simp at hp
  | cons q t ih =>
    simp only [List.map_cons, List.nodup_cons] at hnd
    simp only [List.flatMap_cons]
    by_cases hqp : q.1 = p.1
    · have hq : q = p :=
        entry_eq_of_keys_nodup (l := q :: t)
          (by simp only [List.map_cons, List.nodup_cons]; exact hnd)
          (List.mem_cons_self ..) hp hqp
      subst hq
      have ht : t.flatMap f = [] := by
        refine List.flatMap_eq_nil_iff.mpr (fun r hr => ?_)
        refine hnil r (List.mem_cons_of_mem _ hr) (fun he => ?_)
        exact hnd.1 (he ▸ (List.mem_map.mpr ⟨r, hr, rfl⟩))
      simp [ht]
    · have hp' : p ∈ t := by
        rcases List.mem_cons.mp hp with rfl | hp'
        · exact absurd rfl hqp
        · exact hp'
      rw [hnil q (List.mem_cons_self ..) hqp,
        ih hnd.2 hp' (fun r hr hne =>
          hnil r (List.mem_cons_of_mem _ hr) hne)]
      simp

theorem weeklyViolForWeek_countP_min (tpls : ShiftCatalog)
    (roster : Roster) (p : String × Employee) (w : Int) :
    (weeklyViolForWeek tpls roster p w).countP
      (fun v => v.code == "WEEKLY_MIN_HOURS_NOT_MET" &&
                v.employee_id == some p.2.id)
    = if weeklyKeyPresent roster p.1 w &&
        decide (weeklyHoursFor tpls roster p.1 w <
          (WEEKLY_CONTRACT_HOURS_BOUNDS p.2.contract_type).1) then 1
      else 0 := by
  unfold weeklyViolForWeek
  split_ifs with h1 h2 h3 h4 <;>
    simp_all [List.countP_append, List.countP_cons, List.countP_nil] <;>
    omega

theorem weeklyViolForWeek_countP_max (tpls : ShiftCatalog)
    (roster : Roster) (p : String × Employee) (w : Int) :
    (weeklyViolForWeek tpls roster p w).countP
      (fun v => v.code == "WEEKLY_MAX_HOURS_EXCEEDED" &&
                v.employee_id == some p.2.id)
    = if weeklyKeyPresent roster p.1 w &&
        decide ((WEEKLY_CONTRACT_HOURS_BOUNDS p.2.contract_type).2 <
          weeklyHoursFor tpls roster p.1 w) &&
        !decide (weeklyHoursFor tpls roster p.1 w -
          (WEEKLY_CONTRACT_HOURS_BOUNDS p.2.contract_type).2 ≤ 200) then 1
      else 0 := by
  unfold weeklyViolForWeek
  split_ifs with h1 h2 h3 h4 <;>
    simp_all [List.countP_append, List.countP_cons, List.countP_nil] <;>
    omega

theorem countViolFor_checkRoster_weekly (tpls : ShiftCatalog)
    (ctx : SystemContext) (roster : Roster) (p : String × Employee)
    (hIds : ∀ q ∈ ctx.employees, q.2.id = q.1)
    (hnd : (ctx.employees.map (fun q => q.1)).Nodup)
    (hp : p ∈ ctx.employees) (c : String)
    (hc : c = "WEEKLY_MIN_HOURS_NOT_MET" ∨
          c = "WEEKLY_MAX_HOURS_EXCEEDED") :
    countViolFor (checkRoster tpls ctx roster) c p.2.id
      = (weeklyViolationsEntry tpls roster p).countP
          (fun v => v.code == c && v.employee_id == some p.2.id) := by
  have hcne1 : c ≠ "MIN_HOURS_NOT_MET" := by
    rcases hc with rfl | rfl <;> decide
  have hcne2 : c ≠ "MAX_HOURS_EXCEEDED" := by
    rcases hc with rfl | rfl <;> decide
  have hcne3 : c ≠ "MIN_SHIFT_LENGTH_CASUAL" := by
    rcases hc with rfl | rfl <;> decide
  have hcne4 : c ≠ "INSUFFICIENT_REST" := by
    rcases hc with rfl | rfl <;> decide
  have hcne5 : c ≠ "MAX_CONSECUTIVE_DAYS_EXCEEDED" := by
    rcases hc with rfl | rfl <;> decide
  have hcne6 : c ≠ "UNKNOWN_EMPLOYEE" := by
    rcases hc with rfl | rfl <;> decide
  unfold countViolFor checkRoster
  simp only [List.countP_append]
  have hb2 : (ctx.employees.flatMap
      (biweeklyViolationsEntry tpls roster)).countP
      (fun v => v.code == c && v.employee_id == some p.2.id) = 0 := by
    refine countP_flatMap_eq_zero (fun q hq =>
      List.countP_eq_zero.mpr (fun v hv hpred => ?_))
    obtain ⟨-, hcode⟩ := mem_biweeklyViolationsEntry hv
    simp only [Bool.and_eq_true, beq_iff_eq] at hpred
    rcases hcode with h | h
    · exact hcne1 (hpred.1 ▸ h)
    · exact hcne2 (hpred.1 ▸ h)
  have hb3 : (casualViolations tpls ctx roster).countP
      (fun v => v.code == c && v.employee_id == some p.2.id) = 0 := by
    refine List.countP_eq_zero.mpr (fun v hv hpred => ?_)
    have h := mem_casualViolations hv
    simp only [Bool.and_eq_true, beq_iff_eq] at hpred
    exact hcne3 (hpred.1 ▸ h)
  have hb4 : (ctx.employees.flatMap
      (restViolationsEntry tpls roster)).countP
      (fun v => v.code == c && v.employee_id == some p.2.id) = 0 := by
    refine countP_flatMap_eq_zero (fun q hq =>
      List.countP_eq_zero.mpr (fun v hv hpred => ?_))
    obtain ⟨-, h⟩ := mem_restViolationsEntry hv
    simp only [Bool.and_eq_true, beq_iff_eq] at hpred
    exact hcne4 (hpred.1 ▸ h)
  have hb5 : (ctx.employees.flatMap
      (consecViolationsEntry roster)).countP
      (fun v => v.code == c && v.employee_id == some p.2.id) = 0 := by
    refine countP_flatMap_eq_zero (fun q hq =>
      List.countP_eq_zero.mpr (fun v hv hpred => ?_))
    obtain ⟨-, h⟩ := mem_consecViolationsEntry hv
    simp only [Bool.and_eq_true, beq_iff_eq] at hpred
    exact hcne5 (hpred.1 ▸ h)
  have hb6 : (unknownEmployeeViolations ctx roster).countP
      (fun v => v.code == c && v.employee_id == some p.2.id) = 0 := by
    refine List.countP_eq_zero.mpr (fun v hv hpred => ?_)
    have h := mem_unknownEmployeeViolations hv
    simp only [Bool.and_eq_true, beq_iff_eq] at hpred
    exact hcne6 (hpred.1 ▸ h)
  have hb2b : (ctx.employees.flatMap
      (weeklyViolationsEntry tpls roster)).countP
      (fun v => v.code == c && v.employee_id == some p.2.id)
      = (weeklyViolationsEntry tpls roster p).countP
          (fun v => v.code == c && v.employee_id == some p.2.id) := by
    refine countP_flatMap_eq_single hnd hp (fun q hq hne =>
      List.countP_eq_zero.mpr (fun v hv hpred => ?_))
    obtain ⟨hid, -⟩ := mem_weeklyViolationsEntry hv
    simp only [Bool.and_eq_true, beq_iff_eq] at hpred
    have hqp : q.2.id = p.2.id := by
      have h2 := hid.symm.trans hpred.2
      simpa using h2
    rw [hIds q hq, hIds p hp] at hqp
    exact hne hqp
  rw [hb2, hb3, hb4, hb5, hb6, hb2b]
  omega

/-- C3, amended.  `check_roster` checks the weekly minimum only for
bucket indices 0 and 1: for every employee item, the number of
`WEEKLY_MIN_HOURS_NOT_MET` violations it receives equals the number
of buckets `w ∈ {0, 1}` in which it has at least one assignment and
its weekly total is below the weekly minimum; buckets without
assignments — and every bucket with index ≥ 2, whatever it contains —
yield nothing. -/
theorem C3_amended_weekly_min_buckets (tpls : ShiftCatalog)
    (ctx : SystemContext) (roster : Roster) (p : String × Employee)
    (hIds : ∀ q ∈ ctx.employees, q.2.id = q.1)
    (hnd : (ctx.employees.map (fun q => q.1)).Nodup)
    (hp : p ∈ ctx.employees) :
    countViolFor (checkRoster tpls ctx roster)
      "WEEKLY_MIN_HOURS_NOT_MET" p.2.id
    = (([0, 1] : List Int).filter (fun w =>
        weeklyKeyPresent roster p.1 w &&
        decide (weeklyHoursFor tpls roster p.1 w <
          (WEEKLY_CONTRACT_HOURS_BOUNDS p.2.contract_type).1))).length := by
  rw [countViolFor_checkRoster_weekly tpls ctx roster p hIds hnd hp
    "WEEKLY_MIN_HOURS_NOT_MET" (Or.inl rfl)]
  unfold weeklyViolationsEntry
  simp only [List.flatMap_cons, List.flatMap_nil, List.append_nil,
    List.countP_append, weeklyViolForWeek_countP_min]
  rw [List.filter_cons, List.filter_cons, List.filter_nil]
  split_ifs <;> simp_all

/-- C3, witness: a part-time employee's single 8.5 h assignment in
bucket 0 of a 14-day roster is one checked bucket below the weekly
minimum, so the amended equality instantiates to exactly one
`WEEKLY_MIN_HOURS_NOT_MET`. -/
theorem C3_amended_witness :
    countViolFor (checkRoster DEFAULT_SHIFT_TEMPLATES ctxFullTime
      rosterWeek1) "WEEKLY_MIN_HOURS_NOT_MET" "F1" = 1 := by
  have h := C3_amended_weekly_min_buckets DEFAULT_SHIFT_TEMPLATES
    ctxFullTime rosterWeek1 ("F1", empFullTime) (by decide) (by decide)
    (by decide)
  simpa using h

/-- C6.  For every employee item, the number of
`WEEKLY_MAX_HOURS_EXCEEDED` violations it receives equals the number
of checked buckets `w ∈ {0, 1}` with assignments whose weekly total
exceeds the weekly maximum by strictly more than the 2.0 h (= 200
centihour) tolerance: a total of at most max + 2.0 h produces none,
and a total above max + 2.0 h (e.g. max + 2.01 h) produces exactly
one for that week. -/
theorem C6_weekly_max_tolerance (tpls : ShiftCatalog)
    (ctx : SystemContext) (roster : Roster) (p : String × Employee)
    (hIds : ∀ q ∈ ctx.employees, q.2.id = q.1)
    (hnd : (ctx.employees.map (fun q => q.1)).Nodup)
    (hp : p ∈ ctx.employees) :
    countViolFor (checkRoster tpls ctx roster)
      "WEEKLY_MAX_HOURS_EXCEEDED" p.2.id
    = (([0, 1] : List Int).filter (fun w =>
        weeklyKeyPresent roster p.1 w &&
        decide ((WEEKLY_CONTRACT_HOURS_BOUNDS p.2.contract_type).2 <
          weeklyHoursFor tpls roster p.1 w) &&
        !decide (weeklyHoursFor tpls roster p.1 w -
          (WEEKLY_CONTRACT_HOURS_BOUNDS p.2.contract_type).2 ≤ 200))).length := by
  rw [countViolFor_checkRoster_weekly tpls ctx roster p hIds hnd hp
    "WEEKLY_MAX_HOURS_EXCEEDED" (Or.inr rfl)]
  unfold weeklyViolationsEntry
  simp only [List.flatMap_cons, List.flatMap_nil, List.append_nil,
    List.countP_append, weeklyViolForWeek_countP_max]
  rw [List.filter_cons, List.filter_cons, List.filter_nil]
  split_ifs <;> simp_all

/-- C6, witness at the tolerance boundary: with the casual weekly
maximum of 24 h, employee `"E1"` totals 26.01 h in week 0 (max +
2.01 h) and receives exactly one `WEEKLY_MAX_HOURS_EXCEEDED`, while
employee `"E2"` totals 26.00 h (max + 2.00 h exactly) and receives
none. -/
theorem C6_weekly_max_tolerance_witness :
    countViolFor (checkRoster tplsTolerance ctxTolerance
      rosterTolerance) "WEEKLY_MAX_HOURS_EXCEEDED" "E1" = 1 ∧
    countViolFor (checkRoster tplsTolerance ctxTolerance
      rosterTolerance) "WEEKLY_MAX_HOURS_EXCEEDED" "E2" = 0 := by
  constructor
  · have h := C6_weekly_max_tolerance tplsTolerance ctxTolerance
      rosterTolerance ("E1", empCasual) (by decide) (by decide)
      (by decide)
    simpa using h
  · have h := C6_weekly_max_tolerance tplsTolerance ctxTolerance
      rosterTolerance ("E2", empCasual2) (by decide) (by decide)
      (by decide)
    simpa using h

theorem consecViolationsEntry_length_le_one (roster : Roster)
    (p : String × Employee) :
    (consecViolationsEntry roster p).length ≤ 1 := by
  unfold consecViolationsEntry
  split
  · simp
  · rcases consecWalk p.2.id _ _ 1 with _ | w <;> simp

theorem filter_checkRoster_consec (tpls : ShiftCatalog)
    (ctx : SystemContext) (roster : Roster) (p : String × Employee)
    (hIds : ∀ q ∈ ctx.employees, q.2.id = q.1)
    (hnd : (ctx.employees.map (fun q => q.1)).Nodup)
    (hp : p ∈ ctx.employees) :
    (checkRoster tpls ctx roster).filter
      (fun v => v.code == "MAX_CONSECUTIVE_DAYS_EXCEEDED" &&
                v.employee_id == some p.2.id)
      = (consecViolationsEntry roster p).filter
          (fun v => v.code == "MAX_CONSECUTIVE_DAYS_EXCEEDED" &&
                    v.employee_id == some p.2.id) := by
  unfold checkRoster
  simp only [List.filter_append]
  have hb2 : (ctx.employees.flatMap
      (biweeklyViolationsEntry tpls roster)).filter
      (fun v => v.code == "MAX_CONSECUTIVE_DAYS_EXCEEDED" &&
                v.employee_id == some p.2.id) = [] := by
    refine List.filter_eq_nil_iff.mpr (fun v hv hpred => ?_)
    obtain ⟨q, -, hv⟩ := List.mem_flatMap.mp hv
    obtain ⟨-, hcode⟩ := mem_biweeklyViolationsEntry hv
    simp only [Bool.and_eq_true, beq_iff_eq] at hpred
    rcases hcode with h | h <;> rw [h] at hpred <;> exact absurd hpred.1 (by decide)
  have hb2b : (ctx.employees.flatMap
      (weeklyViolationsEntry tpls roster)).filter
      (fun v => v.code == "MAX_CONSECUTIVE_DAYS_EXCEEDED" &&
                v.employee_id == some p.2.id) = [] := by
    refine List.filter_eq_nil_iff.mpr (fun v hv hpred => ?_)
    obtain ⟨q, -, hv⟩ := List.mem_flatMap.mp hv
    obtain ⟨-, hcode⟩ := mem_weeklyViolationsEntry hv
    simp only [Bool.and_eq_true, beq_iff_eq] at hpred
    rcases hcode with h | h <;> rw [h] at hpred <;> exact absurd hpred.1 (by decide)
  have hb3 : (casualViolations tpls ctx roster).filter
      (fun v => v.code == "MAX_CONSECUTIVE_DAYS_EXCEEDED" &&
                v.employee_id == some p.2.id) = [] := by
    refine List.filter_eq_nil_iff.mpr (fun v hv hpred => ?_)
    have h := mem_casualViolations hv
    simp only [Bool.and_eq_true, beq_iff_eq] at hpred
    rw [h] at hpred
    exact absurd hpred.1 (by decide)
  have hb4 : (ctx.employees.flatMap
      (restViolationsEntry tpls roster)).filter
      (fun v => v.code == "MAX_CONSECUTIVE_DAYS_EXCEEDED" &&
                v.employee_id == some p.2.id) = [] := by
    refine List.filter_eq_nil_iff.mpr (fun v hv hpred => ?_)
    obtain ⟨q, -, hv⟩ := List.mem_flatMap.mp hv
    obtain ⟨-, h⟩ := mem_restViolationsEntry hv
    simp only [Bool.and_eq_true, beq_iff_eq] at hpred
    rw [h] at hpred
    exact absurd hpred.1 (by decide)
  have hb6 : (unknownEmployeeViolations ctx roster).filter
      (fun v => v.code == "MAX_CONSECUTIVE_DAYS_EXCEEDED" &&
                v.employee_id == some p.2.id) = [] := by
    refine List.filter_eq_nil_iff.mpr (fun v hv hpred => ?_)
    have h := mem_unknownEmployeeViolations hv
    simp only [Bool.and_eq_true, beq_iff_eq] at hpred
    rw [h] at hpred
    exact absurd hpred.1 (by decide)
  have hb5 : (ctx.employees.flatMap
      (consecViolationsEntry roster)).filter
      (fun v => v.code == "MAX_CONSECUTIVE_DAYS_EXCEEDED" &&
                v.employee_id == some p.2.id)
      = (consecViolationsEntry roster p).filter
          (fun v => v.code == "MAX_CONSECUTIVE_DAYS_EXCEEDED" &&
                    v.employee_id == some p.2.id) := by
    rw [List.filter_flatMap]
    refine flatMap_eq_single hnd hp (fun q hq hne => ?_)
    refine List.filter_eq_nil_iff.mpr (fun v hv hpred => ?_)
    obtain ⟨hid, -⟩ := mem_consecViolationsEntry hv
    simp only [Bool.and_eq_true, beq_iff_eq] at hpred
    have hqp : q.2.id = p.2.id := by
      have h2 := hid.symm.trans hpred.2
      simpa using h2
    rw [hIds q hq, hIds p hp] at hqp
    exact hne hqp
  rw [hb2, hb2b, hb3, hb4, hb5, hb6]
  simp

/-- C7.  Per employee, `check_roster` walks the date-sorted
assignments with a streak that resets when the gap is not exactly one
day, emits at most one HARD `MAX_CONSECUTIVE_DAYS_EXCEEDED` (it stops
at the first breach), and for an employee whose sorted assignments
are exactly seven consecutive calendar days it emits exactly one such
violation, dated at the seventh day. -/
theorem C7_consecutive_days (tpls : ShiftCatalog) (ctx : SystemContext)
    (roster : Roster) (p : String × Employee)
    (hIds : ∀ q ∈ ctx.employees, q.2.id = q.1)
    (hnd : (ctx.employees.map (fun q => q.1)).Nodup)
    (hp : p ∈ ctx.employees) :
    countViolFor (checkRoster tpls ctx roster)
      "MAX_CONSECUTIVE_DAYS_EXCEEDED" p.2.id ≤ 1 ∧
    (∀ a0 a1 a2 a3 a4 a5 a6 : ShiftAssignment,
      sortedAssignmentsFor roster p.1 = [a0, a1, a2, a3, a4, a5, a6] →
      a1.date - a0.date = 1 → a2.date - a1.date = 1 →
      a3.date - a2.date = 1 → a4.date - a3.date = 1 →
      a5.date - a4.date = 1 → a6.date - a5.date = 1 →
      (checkRoster tpls ctx roster).filter
        (fun v => v.code == "MAX_CONSECUTIVE_DAYS_EXCEEDED" &&
                  v.employee_id == some p.2.id)
        = [{ severity := ViolationSeverity.hard,
             code := "MAX_CONSECUTIVE_DAYS_EXCEEDED",
             employee_id := some p.2.id, date := some a6.date }]) := by
  have hfilter := filter_checkRoster_consec tpls ctx roster p hIds hnd hp
  constructor
  · unfold countViolFor
    rw [List.countP_eq_length_filter, hfilter]
    calc ((consecViolationsEntry roster p).filter _).length
        ≤ (consecViolationsEntry roster p).length :=
          List.length_filter_le _ _
      _ ≤ 1 := consecViolationsEntry_length_le_one roster p
  · intro a0 a1 a2 a3 a4 a5 a6 hs h1 h2 h3 h4 h5 h6
    rw [hfilter]
    unfold consecViolationsEntry
    rw [hs]
    simp [consecWalk, consecStep, h1, h2, h3, h4, h5, h6,
      MAX_CONSECUTIVE_WORKING_DAYS]

/-- C7, witness: the seven-consecutive-day roster receives exactly one
`MAX_CONSECUTIVE_DAYS_EXCEEDED`, at the seventh day (date 6). -/
theorem C7_consecutive_days_witness :
    countViolFor (checkRoster DEFAULT_SHIFT_TEMPLATES ctxSingle
      rosterSevenDays) "MAX_CONSECUTIVE_DAYS_EXCEEDED" "E1" = 1 ∧
    (checkRoster DEFAULT_SHIFT_TEMPLATES ctxSingle rosterSevenDays).filter
      (fun v => v.code == "MAX_CONSECUTIVE_DAYS_EXCEEDED" &&
                v.employee_id == some "E1")
      = [{ severity := ViolationSeverity.hard,
           code := "MAX_CONSECUTIVE_DAYS_EXCEEDED",
           employee_id := some "E1", date := some 6 }] := by
  have h := (C7_consecutive_days DEFAULT_SHIFT_TEMPLATES ctxSingle
    rosterSevenDays ("E1", empCasual) (by decide) (by decide)
    (by decide)).2
    { employee_id := "E1", date := 0, shift_code := "S",
      station := none, store_id := "store_1" }
    { employee_id := "E1", date := 1, shift_code := "S",
      station := none, store_id := "store_1" }
    { employee_id := "E1", date := 2, shift_code := "S",
      station := none, store_id := "store_1" }
    { employee_id := "E1", date := 3, shift_code := "S",
      station := none, store_id := "store_1" }
    { employee_id := "E1", date := 4, shift_code := "S",
      station := none, store_id := "store_1" }
    { employee_id := "E1", date := 5, shift_code := "S",
      station := none, store_id := "store_1" }
    { employee_id := "E1", date := 6, shift_code := "S",
      station := none, store_id := "store_1" }
    (by decide) (by decide) (by decide) (by decide) (by decide)
    (by decide) (by decide)
  exact ⟨by decide, h⟩

theorem findFirstMove_some {ctx : SystemContext} {tpls : ShiftCatalog}
    {assignments : List ShiftAssignment} {hours : String → Int}
    {exclude : String} {pl : List (Nat × ShiftAssignment)}
    {i : Nat} {a : ShiftAssignment} {c : String} {sh : Int}
    (h : findFirstMove ctx tpls assignments hours exclude pl =
      some (i, a, c, sh)) :
    (i, a) ∈ pl ∧
    findReplacementEmployee ctx assignments hours a.date a.shift_code
      (shiftHours tpls a.shift_code) exclude = some c ∧
    sh = shiftHours tpls a.shift_code := by
  induction pl with
  | nil => simp [findFirstMove] at h
  | cons q rest ih =>
    rcases q with ⟨j, b⟩
    unfold findFirstMove at h
    rcases hr : findReplacementEmployee ctx assignments hours b.date
        b.shift_code (shiftHours tpls b.shift_code) exclude with _ | c2 <;>
      rw [hr] at h
    · obtain ⟨h1, h2, h3⟩ := ih h
      exact ⟨List.mem_cons_of_mem _ h1, h2, h3⟩
    · simp only [Option.some.injEq, Prod.mk.injEq] at h
      obtain ⟨rfl, rfl, rfl, rfl⟩ := h
      exact ⟨List.mem_cons_self .., hr, rfl⟩

theorem map_set_same {α β : Type} {l : List α} {i : Nat} {a a' : α}
    {f : α → β} (hi : l[i]? = some a) (hf : f a' = f a) :
    (l.set i a').map f = l.map f := by
  induction l generalizing i with
  | nil => simp at hi
  | cons hd tl ih =>
    cases i with
    | zero =>
      simp only [List.getElem?_cons_zero, Option.some.injEq] at hi
      subst hi
      simp [hf]
    | succ n =>
      simp only [List.getElem?_cons_succ] at hi
      simp [ih hi]

theorem pair_mem_sorted_enum_filter {assignments : List ShiftAssignment}
    {oid : String} {i : Nat} {a : ShiftAssignment}
    (h : (i, a) ∈ stableSort (fun x y => y.2.date ≤ x.2.date)
      (assignments.enum.filter (fun q => q.2.employee_id == oid))) :
    assignments[i]? = some a ∧ a.employee_id = oid := by
  have h1 := mem_stableSort.mp h
  have h2 := (List.mem_filter.mp h1)
  have h3 := List.mem_enum h2.1
  refine ⟨List.getElem?_eq_some_iff.mpr ⟨h3.1, h3.2.symm⟩, ?_⟩
  simpa using h2.2

theorem processOverloadedOne_shape (ctx : SystemContext)
    (tpls : ShiftCatalog)
    (st : List ShiftAssignment × (String → Int) × Bool)
    (oid : String) :
    ((processOverloadedOne ctx tpls st oid).1).map assignmentShape =
      (st.1).map assignmentShape := by
  unfold processOverloadedOne
  split
  · rfl
  · simp only []
    split
    · rfl
    · split
      · rfl
      · rename_i emp hle i a c sh hfm
        obtain ⟨hmem, -, -⟩ := findFirstMove_some hfm
        obtain ⟨hget, -⟩ := pair_mem_sorted_enum_filter hmem
        exact map_set_same hget rfl

theorem foldl_processOne_shape (ctx : SystemContext)
    (tpls : ShiftCatalog) (ids : List String)
    (st : List ShiftAssignment × (String → Int) × Bool) :
    ((ids.foldl (processOverloadedOne ctx tpls) st).1).map
      assignmentShape = (st.1).map assignmentShape := by
  induction ids generalizing st with
  | nil => rfl
  | cons oid rest ih =>
    simp only [List.foldl_cons]
    rw [ih (processOverloadedOne ctx tpls st oid),
      processOverloadedOne_shape]

theorem rebalanceLoop_shape (ctx : SystemContext) (tpls : ShiftCatalog)
    (fuel : Nat) (assignments : List ShiftAssignment) :
    (rebalanceLoop ctx tpls fuel assignments).map assignmentShape =
      assignments.map assignmentShape := by
  induction fuel generalizing assignments with
  | zero => rfl
  | succ n ih =>
    unfold rebalanceLoop
    simp only []
    split
    · rfl
    · split
      · rw [ih]
        exact foldl_processOne_shape ctx tpls _ _
      · exact foldl_processOne_shape ctx tpls _ _

/-- C9.  The roster returned by `rebalance_hours` has exactly as many
assignments as the input, and position by position each assignment
keeps its (date, shift code, station, store id) — reassignment
changes only `employee_id`, never adds or removes an assignment — so
in particular the multiset of those tuples is preserved; the store id
and the date range of the roster are unchanged as well. -/
theorem C9_rebalance_preserves_shape (tpls : ShiftCatalog)
    (ctx : SystemContext) (roster : Roster) (n : Nat) :
    (rebalanceHours tpls ctx roster n).assignments.length =
      roster.assignments.length ∧
    (rebalanceHours tpls ctx roster n).assignments.map assignmentShape =
      roster.assignments.map assignmentShape ∧
    ((rebalanceHours tpls ctx roster n).assignments.map assignmentShape :
      Multiset (Int × String × Option SkillTag × String)) =
      (roster.assignments.map assignmentShape :
        Multiset (Int × String × Option SkillTag × String)) ∧
    (rebalanceHours tpls ctx roster n).store_id = roster.store_id ∧
    (rebalanceHours tpls ctx roster n).start_date = roster.start_date ∧
    (rebalanceHours tpls ctx roster n).end_date = roster.end_date := by
  have h : (rebalanceHours tpls ctx roster n).assignments.map
      assignmentShape = roster.assignments.map assignmentShape :=
    rebalanceLoop_shape ctx tpls n roster.assignments
  refine ⟨?_, h, by rw [h], rfl, rfl, rfl⟩
  have h2 := congrArg List.length h
  simpa using h2

theorem computeHours_cons (tpls : ShiftCatalog) (b : ShiftAssignment)
    (l : List ShiftAssignment) (k : String) :
    computeHoursByEmployee tpls (b :: l) k =
      (if b.employee_id = k then shiftHours tpls b.shift_code else 0) +
      computeHoursByEmployee tpls l k := by
  unfold computeHoursByEmployee
  rw [List.filter_cons]
  by_cases h : b.employee_id = k <;> simp [h]

theorem computeHours_set (tpls : ShiftCatalog)
    {l : List ShiftAssignment} {i : Nat} {a : ShiftAssignment}
    (a' : ShiftAssignment) (hi : l[i]? = some a) (k : String) :
    computeHoursByEmployee tpls (l.set i a') k =
      computeHoursByEmployee tpls l k -
      (if a.employee_id = k then shiftHours tpls a.shift_code else 0) +
      (if a'.employee_id = k then shiftHours tpls a'.shift_code else 0) := by
  induction l generalizing i with
  | nil => simp at hi
  | cons hd tl ih =>
    cases i with
    | zero =>
      simp only [List.getElem?_cons_zero, Option.some.injEq] at hi
      subst hi
      simp only [List.set_cons_zero]
      rw [computeHours_cons, computeHours_cons]
      split_ifs <;> omega
    | succ n =>
      simp only [List.getElem?_cons_succ] at hi
      simp only [List.set_cons_succ]
      rw [computeHours_cons, computeHours_cons, ih hi]
      split_ifs <;> omega

theorem replacementEligible_facts {ctx : SystemContext}
    {assignments : List ShiftAssignment} {hours : String → Int}
    {date_ : Int} {shift_code : String} {shift_hours : Int}
    {exclude : String} {p : String × Employee}
    (h : replacementEligible ctx assignments hours date_ shift_code
      shift_hours exclude p = true) :
    p.1 ≠ exclude ∧
    hours p.1 + shift_hours ≤
      (CONTRACT_HOURS_BOUNDS p.2.contract_type).2 := by
  unfold replacementEligible at h
  simp only [Bool.and_eq_true, decide_eq_true_eq] at h
  exact ⟨h.1.1.1, h.2⟩

theorem findReplacement_some {ctx : SystemContext}
    {assignments : List ShiftAssignment} {hours : String → Int}
    {date_ : Int} {shift_code : String} {shift_hours : Int}
    {exclude : String} {c : String}
    (h : findReplacementEmployee ctx assignments hours date_ shift_code
      shift_hours exclude = some c) :
    ∃ p ∈ ctx.employees, p.1 = c ∧
      replacementEligible ctx assignments hours date_ shift_code
        shift_hours exclude p = true := by
  unfold findReplacementEmployee at h
  simp only [] at h
  rcases hf : (ctx.employees.filter
      (replacementEligible ctx assignments hours date_ shift_code
        shift_hours exclude)).find? (fun p =>
        hours p.1 < (CONTRACT_HOURS_BOUNDS p.2.contract_type).1)
    with _ | p
  · rw [hf] at h
    rcases hh : (ctx.employees.filter
        (replacementEligible ctx assignments hours date_ shift_code
          shift_hours exclude)).head? with _ | p
    · rw [hh] at h
      simp at h
    · rw [hh] at h
      simp at h
      obtain ⟨ys, hys⟩ := List.head?_eq_some_iff.mp hh
      have hmem : p ∈ ctx.employees.filter
          (replacementEligible ctx assignments hours date_ shift_code
            shift_hours exclude) := by
        rw [hys]
        exact List.mem_cons_self ..
      have h2 := List.mem_filter.mp hmem
      exact ⟨p, h2.1, h, h2.2⟩
  · rw [hf] at h
    simp only [Option.some.injEq] at h
    have hmem := List.mem_of_find?_eq_some hf
    have h2 := List.mem_filter.mp hmem
    exact ⟨p, h2.1, h, h2.2⟩

theorem processOverloadedOne_inv (ctx : SystemContext)
    (tpls : ShiftCatalog)
    (st : List ShiftAssignment × (String → Int) × Bool) (oid : String)
    (hnd : (ctx.employees.map (fun q => q.1)).Nodup)
    (hacc : ∀ k, st.2.1 k = computeHoursByEmployee tpls st.1 k) :
    (∀ k, (processOverloadedOne ctx tpls st oid).2.1 k =
      computeHoursByEmployee tpls
        (processOverloadedOne ctx tpls st oid).1 k) ∧
    (∀ p ∈ ctx.employees,
      st.2.1 p.1 ≤ (CONTRACT_HOURS_BOUNDS p.2.contract_type).2 →
      (processOverloadedOne ctx tpls st oid).2.1 p.1 ≤
        (CONTRACT_HOURS_BOUNDS p.2.contract_type).2) := by
  unfold processOverloadedOne
  split
  · exact ⟨hacc, fun p hp h => h⟩
  · rename_i emp halo
    simp only []
    split
    · exact ⟨hacc, fun p hp h => h⟩
    · rename_i hover
      split
      · exact ⟨hacc, fun p hp h => h⟩
      · rename_i i a c sh hfm
        obtain ⟨hmem, hrep, hsh⟩ := findFirstMove_some hfm
        obtain ⟨hget, haid⟩ := pair_mem_sorted_enum_filter hmem
        obtain ⟨pc, hpc, hpc1, helig⟩ := findReplacement_some hrep
        obtain ⟨hcne', hroom⟩ := replacementEligible_facts helig
        have hcne : c ≠ oid := hpc1 ▸ hcne'
        constructor
        · intro k
          rw [computeHours_set tpls _ hget k]
          by_cases hkc : k = c
          · subst hkc
            simp only [if_pos rfl, haid, hsh, hacc,
              if_neg (Ne.symm hcne)]
            split_ifs <;> omega
          · by_cases hko : k = oid
            · subst hko
              simp only [if_pos rfl, if_neg hkc, haid, hsh, hacc]
              split_ifs <;> omega
            · simp only [if_neg hkc, if_neg hko, haid, hacc]
              have h1 : ¬ (oid = k) := fun he => hko he.symm
              have h2 : ¬ (c = k) := fun he => hkc he.symm
              simp [h1, h2]
        · intro p hp hbound
          by_cases hpc' : p.1 = c
          · have hpe : p = pc :=
              entry_eq_of_keys_nodup hnd hp hpc (by rw [hpc', hpc1])
            rw [hpe, hpc1]
            simp only []
            simp only [if_true, if_neg hcne]
            rw [hpc1] at hroom
            omega
          · by_cases hpo : p.1 = oid
            · have halo2 := alookup_eq_of_mem_nodup hnd hp
              rw [hpo, halo] at halo2
              have hemp : emp = p.2 := Option.some.inj halo2
              rw [hpo, ← hemp] at hbound
              exact absurd hbound hover
            · simp only [if_neg hpc', if_neg hpo]
              exact hbound

theorem foldl_processOne_inv (ctx : SystemContext) (tpls : ShiftCatalog)
    (hnd : (ctx.employees.map (fun q => q.1)).Nodup)
    (ids : List String)
    (st : List ShiftAssignment × (String → Int) × Bool)
    (hacc : ∀ k, st.2.1 k = computeHoursByEmployee tpls st.1 k) :
    (∀ k, ((ids.foldl (processOverloadedOne ctx tpls) st).2.1) k =
      computeHoursByEmployee tpls
        ((ids.foldl (processOverloadedOne ctx tpls) st).1) k) ∧
    (∀ p ∈ ctx.employees,
      st.2.1 p.1 ≤ (CONTRACT_HOURS_BOUNDS p.2.contract_type).2 →
      ((ids.foldl (processOverloadedOne ctx tpls) st).2.1) p.1 ≤
        (CONTRACT_HOURS_BOUNDS p.2.contract_type).2) := by
  induction ids generalizing st with
  | nil => exact ⟨hacc, fun p hp h => h⟩
  | cons oid rest ih =>
    simp only [List.foldl_cons]
    obtain ⟨hacc', hmono⟩ := processOverloadedOne_inv ctx tpls st oid hnd hacc
    obtain ⟨hacc'', hmono'⟩ := ih _ hacc'
    exact ⟨hacc'', fun p hp h => hmono' p hp (hmono p hp h)⟩

theorem rebalanceIteration_bound (ctx : SystemContext)
    (tpls : ShiftCatalog)
    (hnd : (ctx.employees.map (fun q => q.1)).Nodup)
    (asg : List ShiftAssignment) (ids : List String)
    (p : String × Employee) (hp : p ∈ ctx.employees)
    (h : computeHoursByEmployee tpls asg p.1 ≤
      (CONTRACT_HOURS_BOUNDS p.2.contract_type).2) :
    computeHoursByEmployee tpls
      ((rebalanceIteration ctx tpls asg
        (computeHoursByEmployee tpls asg) ids).1) p.1 ≤
      (CONTRACT_HOURS_BOUNDS p.2.contract_type).2 := by
  unfold rebalanceIteration
  obtain ⟨hacc', hmono⟩ := foldl_processOne_inv ctx tpls hnd ids
    (asg, computeHoursByEmployee tpls asg, false) (fun k => rfl)
  have h2 := hmono p hp h
  rwa [hacc'] at h2

theorem rebalanceLoop_bound (ctx : SystemContext) (tpls : ShiftCatalog)
    (hnd : (ctx.employees.map (fun q => q.1)).Nodup) (fuel : Nat)
    (asg : List ShiftAssignment) (p : String × Employee)
    (hp : p ∈ ctx.employees)
    (h : computeHoursByEmployee tpls asg p.1 ≤
      (CONTRACT_HOURS_BOUNDS p.2.contract_type).2) :
    computeHoursByEmployee tpls (rebalanceLoop ctx tpls fuel asg) p.1 ≤
      (CONTRACT_HOURS_BOUNDS p.2.contract_type).2 := by
  induction fuel generalizing asg with
  | zero => exact h
  | succ n ih =>
    unfold rebalanceLoop
    simp only []
    split
    · exact h
    · split
      · exact ih _ (rebalanceIteration_bound ctx tpls hnd asg _ p hp h)
      · exact rebalanceIteration_bound ctx tpls hnd asg _ p hp h

/-- C10.  `_find_replacement_employee` accepts a candidate only if the
candidate's aggregated hours plus the moved shift's hours stay at or
below the candidate's bi-weekly contract maximum, and the running
hours aggregation stays consistent with the assignment list, so
`rebalance_hours` never creates a new overloaded employee: every
employee whose aggregated hours (catalog duration per assignment,
8.0 h default for unknown codes) are at or below their bi-weekly
contract maximum in the input roster is still at or below it in the
output roster. -/
theorem C10_no_new_overload (tpls : ShiftCatalog) (ctx : SystemContext)
    (roster : Roster) (n : Nat)
    (hnd : (ctx.employees.map (fun q => q.1)).Nodup)
    (p : String × Employee) (hp : p ∈ ctx.employees)
    (hin : computeHoursByEmployee tpls roster.assignments p.1 ≤
      (CONTRACT_HOURS_BOUNDS p.2.contract_type).2) :
    computeHoursByEmployee tpls
      (rebalanceHours tpls ctx roster n).assignments p.1 ≤
      (CONTRACT_HOURS_BOUNDS p.2.contract_type).2 :=
  rebalanceLoop_bound ctx tpls hnd n roster.assignments p hp hin

/-- C10, witness: in the overloaded instance, `"E2"` starts with 0 h
(below the 48 h casual maximum) and, after the rebalance moves one
8.5 h shift onto them, is still below it. -/
theorem C10_no_new_overload_witness :
    computeHoursByEmployee DEFAULT_SHIFT_TEMPLATES
      (rebalanceHours DEFAULT_SHIFT_TEMPLATES ctxRebalance
        rosterOverloaded).assignments "E2" ≤ 4800 := by
  have h := C10_no_new_overload DEFAULT_SHIFT_TEMPLATES ctxRebalance
    rosterOverloaded 20 (by decide) ("E2", empCasual2) (by decide)
    (by decide)
  exact h

theorem sum_filterMap_ite {codes : List String} {cnd : String → Bool}
    {g : String → ShiftAssignment} {h : ShiftAssignment → Int} :
    ((codes.filterMap (fun s => if cnd s then some (g s) else none)).map
      h).sum
    = (codes.map (fun s => if cnd s then h (g s) else 0)).sum := by
  induction codes with
  | nil => rfl
  | cons s rest ih =>
    rw [List.filterMap_cons, List.map_cons, List.sum_cons]
    by_cases hc : cnd s <;> simp [hc, ih]

theorem sum_map_flatMap {α β : Type} (l : List α) (f : α → List β)
    (g : β → Int) :
    ((l.flatMap f).map g).sum
      = (l.map (fun a => ((f a).map g).sum)).sum := by
  induction l with
  | nil => rfl
  | cons a rest ih =>
    rw [List.flatMap_cons, List.map_append, List.sum_append, ih,
      List.map_cons, List.sum_cons]

theorem mem_decodeFor_facts {ctx : SystemContext} {store_id : String}
    {sd ed : Int} {sol : GenSolution} {q : String × Employee}
    {a : ShiftAssignment}
    (h : a ∈ decodeFor ctx store_id sd ed sol q) :
    a.employee_id = q.2.id ∧ a.date ∈ datesList sd ed ∧
    a.shift_code ∈ allowedCodesOn ctx q.2.id a.date ∧
    sol.x q.2.id a.date a.shift_code = true := by
  unfold decodeFor at h
  obtain ⟨d, hd, h⟩ := List.mem_flatMap.mp h
  obtain ⟨s, hs, h⟩ := List.mem_filterMap.mp h
  split at h
  · rename_i hx
    simp only [Option.some.injEq] at h
    subst h
    exact ⟨rfl, hd, hs, hx⟩
  · simp at h

theorem mem_decodeAssignments_facts {ctx : SystemContext}
    {store_id : String} {sd ed : Int} {sol : GenSolution}
    {a : ShiftAssignment}
    (h : a ∈ decodeAssignments ctx store_id sd ed sol) :
    ∃ q ∈ ctx.employees, a.employee_id = q.2.id ∧
      a.date ∈ datesList sd ed ∧
      a.shift_code ∈ allowedCodesOn ctx q.2.id a.date ∧
      sol.x q.2.id a.date a.shift_code = true := by
  unfold decodeAssignments at h
  obtain ⟨q, hq, h⟩ := List.mem_flatMap.mp h
  exact ⟨q, hq, mem_decodeFor_facts h⟩

theorem hoursByEmp_decode (tpls : ShiftCatalog) (ctx : SystemContext)
    (store_id : String) (sd ed : Int) (sol : GenSolution)
    (p : String × Employee)
    (hIds : ∀ q ∈ ctx.employees, q.2.id = q.1)
    (hnd : (ctx.employees.map (fun q => q.1)).Nodup)
    (hp : p ∈ ctx.employees) :
    hoursByEmp tpls (decodeAssignments ctx store_id sd ed sol) p.1
      = ((datesList sd ed).map (fun d =>
          ((allowedCodesOn ctx p.2.id d).map (fun s =>
            if sol.x p.2.id d s then shiftHours tpls s else 0)).sum)).sum := by
  unfold hoursByEmp decodeAssignments
  rw [List.filter_flatMap]
  rw [flatMap_eq_single hnd hp (fun q hq hne => ?_)]
  · rw [List.filter_eq_self.mpr (fun a ha => ?_)]
    · unfold decodeFor
      rw [sum_map_flatMap]
      congr 1
      refine List.map_congr_left (fun d hd => ?_)
      exact sum_filterMap_ite
    · have hfacts := mem_decodeFor_facts ha
      simp [hfacts.1, hIds p hp]
  · refine List.filter_eq_nil_iff.mpr (fun a ha hpred => ?_)
    have hfacts := mem_decodeFor_facts ha
    rw [hfacts.1, hIds q hq] at hpred
    simp only [beq_iff_eq] at hpred
    exact hne hpred

theorem allowed_sub_availability {ctx : SystemContext} {e : String}
    {d : Int} {s : String} (h : s ∈ allowedCodesOn ctx e d) :
    s ∈ availabilityCodes ctx := by
  unfold allowedCodesOn availAllowed at h
  rcases ha : alookup ctx.availability e with _ | av <;> rw [ha] at h <;>
    simp only [] at h
  · simp at h
  · rcases hd : dlookup av.allowed_shift_codes_by_date d
      with _ | codes <;> rw [hd] at h <;> simp only [] at h
    · simp at h
    · have h1 := List.mem_dedup.mp h
      have h2 := alookup_mem ha
      have h3 := dlookup_mem hd
      unfold availabilityCodes
      exact List.mem_flatMap.mpr ⟨(e, av), h2,
        List.mem_flatMap.mpr ⟨(d, codes), h3, h1⟩⟩

theorem decode_sum_le_max (tpls : ShiftCatalog) (ctx : SystemContext)
    (sol : GenSolution) (ds : List Int) (e : String)
    (hallow : ∀ d ∈ ds, ∀ s ∈ allowedCodesOn ctx e d,
      ∃ t, alookup tpls s = some t ∧ 50 ∣ t.hours)
    {maxC : Int} (hdvd : 50 ∣ maxC)
    (hcon : totalUnits tpls ctx sol e ds ≤ pyRoundHalfUnits maxC) :
    (ds.map (fun d => ((allowedCodesOn ctx e d).map (fun s =>
      if sol.x e d s then shiftHours tpls s else 0)).sum)).sum ≤ maxC := by
  have hpt : ∀ d ∈ ds,
      ((allowedCodesOn ctx e d).map (fun s =>
        if sol.x e d s then shiftHours tpls s else 0)).sum
      = 50 * ((allowedCodesOn ctx e d).map
          (unitsTerm tpls sol e d)).sum := by
    intro d hd
    rw [← List.sum_map_mul_left]
    refine congrArg List.sum (List.map_congr_left (fun s hs => ?_))
    obtain ⟨t, ht, hdv⟩ := hallow d hd s hs
    unfold unitsTerm xI shiftHours
    rw [ht]
    simp only []
    rw [pyRoundHalfUnits_of_dvd hdv]
    by_cases hx : sol.x e d s <;> simp [hx]
    exact (Int.mul_ediv_cancel' hdv).symm
  have hmain : (ds.map (fun d => ((allowedCodesOn ctx e d).map (fun s =>
      if sol.x e d s then shiftHours tpls s else 0)).sum)).sum
      = 50 * totalUnits tpls ctx sol e ds := by
    unfold totalUnits
    rw [← List.sum_map_mul_left]
    exact congrArg List.sum (List.map_congr_left hpt)
  rw [hmain, pyRoundHalfUnits_of_dvd hdvd] at *
  omega

theorem contract_max_dvd (ct : ContractType) :
    50 ∣ (CONTRACT_HOURS_BOUNDS ct).2 := by
  cases ct <;> decide

theorem decode_total_le_max (tpls : ShiftCatalog) (ctx : SystemContext)
    (store_id : String) (sd ed : Int) (sol : GenSolution)
    (q : String × Employee)
    (hIds : ∀ r ∈ ctx.employees, r.2.id = r.1)
    (hnd : (ctx.employees.map (fun r => r.1)).Nodup)
    (hq : q ∈ ctx.employees)
    (hcat : ∀ s ∈ availabilityCodes ctx,
      ∃ t, alookup tpls s = some t ∧ 50 ∣ t.hours)
    (hcon2 : conBiweeklyMax tpls ctx (datesList sd ed)
      (ctx.employees.map (fun r => r.2)) sol) :
    hoursByEmp tpls (decodeAssignments ctx store_id sd ed sol) q.1 ≤
      (CONTRACT_HOURS_BOUNDS q.2.contract_type).2 := by
  rw [hoursByEmp_decode tpls ctx store_id sd ed sol q hIds hnd hq]
  refine decode_sum_le_max tpls ctx sol _ _
    (fun d hd s hs => hcat s (allowed_sub_availability hs))
    (contract_max_dvd q.2.contract_type) ?_
  exact hcon2 q.2 (List.mem_map.mpr ⟨q, hq, rfl⟩)

theorem countP_code_zero {vs : List Violation} {c : String}
    (h : ∀ v ∈ vs, v.code ≠ c) :
    vs.countP (fun v => v.code == c) = 0 :=
  List.countP_eq_zero.mpr (fun v hv => by simp [h v hv])

theorem biweekly_countP_max_zero (tpls : ShiftCatalog) (roster : Roster)
    (p : String × Employee)
    (hle : hoursByEmp tpls roster.assignments p.1 ≤
      (CONTRACT_HOURS_BOUNDS p.2.contract_type).2) :
    (biweeklyViolationsEntry tpls roster p).countP
      (fun v => v.code == "MAX_HOURS_EXCEEDED") = 0 := by
  unfold biweeklyViolationsEntry
  simp only []
  rw [List.countP_append]
  split_ifs <;> simp_all [List.countP_cons, List.countP_nil] <;> omega

theorem restMinutesBetween_gap1 (tpls : ShiftCatalog)
    {prev nxt : ShiftAssignment} (h : nxt.date - prev.date = 1) :
    restMinutesBetween tpls prev nxt
      = restMinutesBetweenCodes tpls prev.shift_code nxt.shift_code := by
  unfold restMinutesBetween restMinutesBetweenCodes
  rcases htp : alookup tpls prev.shift_code with _ | tp <;>
    rcases htn : alookup tpls nxt.shift_code with _ | tn <;>
      simp only [] <;> omega

theorem rest_entry_decode_nil (tpls : ShiftCatalog) (ctx : SystemContext)
    (store_id : String) (sd ed : Int) (sol : GenSolution)
    (q : String × Employee)
    (hIds : ∀ r ∈ ctx.employees, r.2.id = r.1)
    (hnd : (ctx.employees.map (fun r => r.1)).Nodup)
    (hq : q ∈ ctx.employees)
    (hcon : conRestExclusion tpls ctx (datesList sd ed)
      (ctx.employees.map (fun r => r.2)) sol) :
    restViolationsEntry tpls (decodeRoster ctx store_id sd ed sol) q
      = [] := by
  unfold restViolationsEntry
  simp only []
  rw [List.filterMap_eq_nil_iff]
  rintro ⟨a, b⟩ hpr
  have hmem := mem_zip_tail hpr
  have hmemA := hmem.1
  have hmemB := hmem.2
  unfold sortedAssignmentsFor at hmemA hmemB
  simp only [decodeRoster] at hmemA hmemB
  have h2a := List.mem_filter.mp (mem_stableSort.mp hmemA)
  have h2b := List.mem_filter.mp (mem_stableSort.mp hmemB)
  have haq : a.employee_id = q.1 := by simpa using h2a.2
  have hbq : b.employee_id = q.1 := by simpa using h2b.2
  obtain ⟨qa, hqa, haid, hadate, hacode, hax⟩ :=
    mem_decodeAssignments_facts h2a.1
  obtain ⟨qb, hqb, hbid, hbdate, hbcode, hbx⟩ :=
    mem_decodeAssignments_facts h2b.1
  have hqa_eq : qa = q := entry_eq_of_keys_nodup hnd hqa hq
    (by rw [← hIds qa hqa, ← haid, haq])
  have hqb_eq : qb = q := entry_eq_of_keys_nodup hnd hqb hq
    (by rw [← hIds qb hqb, ← hbid, hbq])
  rw [hqa_eq] at hacode hax
  rw [hqb_eq] at hbcode hbx
  split_ifs with h1 h2
  · rfl
  · exfalso
    have hgap : b.date - a.date = 1 := not_not.mp h1
    rw [restMinutesBetween_gap1 tpls hgap] at h2
    have hbd : b.date = a.date + 1 := by omega
    have hempm : q.2 ∈ ctx.employees.map (fun r => r.2) :=
      List.mem_map.mpr ⟨q, hq, rfl⟩
    have hforb := hcon q.2 hempm a.date hadate
      (by rw [← hbd]; exact hbdate) a.shift_code hacode b.shift_code
      (by rw [← hbd]; exact hbcode) h2
    exact hforb ⟨hax, by rw [← hbd]; exact hbx⟩
  · rfl

/-- C1 (amended).  Restricted to contexts whose employee dict is
wellformed (values carry their key as id, keys unique) and catalogs
that know every shift code occurring in the availability data with a
half-hour-granular duration, every roster decoded from a solution of
the model's hard constraints passes `check_roster` with zero
`MAX_HOURS_EXCEEDED` and zero `INSUFFICIENT_REST` violations. -/
theorem C1_amended_generated_clean (tpls : ShiftCatalog)
    (ctx : SystemContext) (store_id : String) (sd ed : Int)
    (sol : GenSolution)
    (hIds : ∀ q ∈ ctx.employees, q.2.id = q.1)
    (hnd : (ctx.employees.map (fun q => q.1)).Nodup)
    (hcat : ∀ s ∈ availabilityCodes ctx,
      ∃ t, alookup tpls s = some t ∧ 50 ∣ t.hours)
    (hcon : genHardConstraints tpls ctx sd ed sol) :
    countViol (checkRoster tpls ctx
        (decodeRoster ctx store_id sd ed sol)) "MAX_HOURS_EXCEEDED" = 0 ∧
    countViol (checkRoster tpls ctx
        (decodeRoster ctx store_id sd ed sol)) "INSUFFICIENT_REST" = 0 := by
  unfold genHardConstraints genHardConstraintsOn at hcon
  obtain ⟨-, hcon2, -, hconR, -, -, -⟩ := hcon
  constructor
  · unfold countViol checkRoster
    rw [List.countP_append, List.countP_append, List.countP_append,
      List.countP_append, List.countP_append]
    have hb : (ctx.employees.flatMap (biweeklyViolationsEntry tpls
        (decodeRoster ctx store_id sd ed sol))).countP
        (fun v => v.code == "MAX_HOURS_EXCEEDED") = 0 :=
      countP_flatMap_eq_zero (fun q hq =>
        biweekly_countP_max_zero tpls _ q
          (decode_total_le_max tpls ctx store_id sd ed sol q hIds hnd hq
            hcat hcon2))
    have hw : (ctx.employees.flatMap (weeklyViolationsEntry tpls
        (decodeRoster ctx store_id sd ed sol))).countP
        (fun v => v.code == "MAX_HOURS_EXCEEDED") = 0 :=
      countP_flatMap_eq_zero (fun q hq => countP_code_zero
        (fun v hv => by
          rcases (mem_weeklyViolationsEntry hv).2 with h | h <;>
            rw [h] <;> decide))
    have hc : (casualViolations tpls ctx
        (decodeRoster ctx store_id sd ed sol)).countP
        (fun v => v.code == "MAX_HOURS_EXCEEDED") = 0 :=
      countP_code_zero (fun v hv => by rw [mem_casualViolations hv]; decide)
    have hr : (ctx.employees.flatMap (restViolationsEntry tpls
        (decodeRoster ctx store_id sd ed sol))).countP
        (fun v => v.code == "MAX_HOURS_EXCEEDED") = 0 :=
      countP_flatMap_eq_zero (fun q hq => countP_code_zero
        (fun v hv => by rw [(mem_restViolationsEntry hv).2]; decide))
    have hcs : (ctx.employees.flatMap (consecViolationsEntry
        (decodeRoster ctx store_id sd ed sol))).countP
        (fun v => v.code == "MAX_HOURS_EXCEEDED") = 0 :=
      countP_flatMap_eq_zero (fun q hq => countP_code_zero
        (fun v hv => by rw [(mem_consecViolationsEntry hv).2]; decide))
    have hu : (unknownEmployeeViolations ctx
        (decodeRoster ctx store_id sd ed sol)).countP
        (fun v => v.code == "MAX_HOURS_EXCEEDED") = 0 :=
      countP_code_zero
        (fun v hv => by rw [mem_unknownEmployeeViolations hv]; decide)
    omega
  · unfold countViol checkRoster
    rw [List.countP_append, List.countP_append, List.countP_append,
      List.countP_append, List.countP_append]
    have hb : (ctx.employees.flatMap (biweeklyViolationsEntry tpls
        (decodeRoster ctx store_id sd ed sol))).countP
        (fun v => v.code == "INSUFFICIENT_REST") = 0 :=
      countP_flatMap_eq_zero (fun q hq => countP_code_zero
        (fun v hv => by
          rcases (mem_biweeklyViolationsEntry hv).2 with h | h <;>
            rw [h] <;> decide))
    have hw : (ctx.employees.flatMap (weeklyViolationsEntry tpls
        (decodeRoster ctx store_id sd ed sol))).countP
        (fun v => v.code == "INSUFFICIENT_REST") = 0 :=
      countP_flatMap_eq_zero (fun q hq => countP_code_zero
        (fun v hv => by
          rcases (mem_weeklyViolationsEntry hv).2 with h | h <;>
            rw [h] <;> decide))
    have hc : (casualViolations tpls ctx
        (decodeRoster ctx store_id sd ed sol)).countP
        (fun v => v.code == "INSUFFICIENT_REST") = 0 :=
      countP_code_zero (fun v hv => by rw [mem_casualViolations hv]; decide)
    have hr : (ctx.employees.flatMap (restViolationsEntry tpls
        (decodeRoster ctx store_id sd ed sol))).countP
        (fun v => v.code == "INSUFFICIENT_REST") = 0 :=
      countP_flatMap_eq_zero (fun q hq => by
        rw [rest_entry_decode_nil tpls ctx store_id sd ed sol q hIds hnd
          hq hconR]
        rfl)
    have hcs : (ctx.employees.flatMap (consecViolationsEntry
        (decodeRoster ctx store_id sd ed sol))).countP
        (fun v => v.code == "INSUFFICIENT_REST") = 0 :=
      countP_flatMap_eq_zero (fun q hq => countP_code_zero
        (fun v hv => by rw [(mem_consecViolationsEntry hv).2]; decide))
    have hu : (unknownEmployeeViolations ctx
        (decodeRoster ctx store_id sd ed sol)).countP
        (fun v => v.code == "INSUFFICIENT_REST") = 0 :=
      countP_code_zero
        (fun v hv => by rw [mem_unknownEmployeeViolations hv]; decide)
    omega

theorem C1_amended_witness :
    countViol (checkRoster DEFAULT_SHIFT_TEMPLATES ctxKnownCode
        (decodeRoster ctxKnownCode "store_1" 0 0 solOn))
      "MAX_HOURS_EXCEEDED" = 0 ∧
    countViol (checkRoster DEFAULT_SHIFT_TEMPLATES ctxKnownCode
        (decodeRoster ctxKnownCode "store_1" 0 0 solOn))
      "INSUFFICIENT_REST" = 0 :=
  C1_amended_generated_clean DEFAULT_SHIFT_TEMPLATES ctxKnownCode
    "store_1" 0 0 solOn (by decide) (by decide)
    (fun s hs => by
      have hav : availabilityCodes ctxKnownCode = ["S"] := rfl
      rw [hav] at hs
      have hseq : s = "S" := by simpa using hs
      subst hseq
      exact ⟨⟨⟨6, 30⟩, ⟨15, 0⟩, 850⟩, rfl, by norm_num⟩)
    (by decide)
